import Mathlib

/-!
A verification development for the OxyPy tree-walking interpreter
(`src/tokenizer.rs`, `src/AstTree.rs`, `src/Environment.rs`, `src/runtime.rs`,
`src/Functions.rs`).

Modelling conventions:
* Machine integers (`i32`/`i64`) are modelled as unbounded `Int`; the
  properties verified here do not depend on overflow behaviour.
* IEEE floats (`f32`/`f64`) are modelled as rationals `ℚ`; the verified
  properties about floats only involve zero tests, sign tests and the
  `|a - b| < EPSILON` comparison pattern, whose control structure is
  faithfully reflected on `ℚ`.  The machine epsilon constants are the exact
  rational values of `f32::EPSILON` and `f64::EPSILON`.
* Rust `HashMap`s are modelled as association lists with insert-overwrite
  (`mapInsert`) and first-match lookup (`mapLookup`), which reproduces the
  map semantics of `HashMap::insert` / `HashMap::get`.
* Console output (`print!`, `eprintln!`) has no effect on interpreter state
  and is dropped from the model.
* The dead `DataHolder::CONDITIONAL_EXPRESSION` variant (never constructed
  anywhere in the sources) and the dead `Statement::Function` variant
  (never produced by the parser, never executed) are omitted.
-/

namespace OxyPy

/-- The surface-language type tags (`tokenizer.rs`, `enum Types`). -/
inductive Types where
  | INTEGER32
  | INTEGER64
  | FLOAT32
  | FLOAT64
  | BOOLEAN
  | STRING
  | LIST
  | NONE
deriving DecidableEq, Repr

/-- Runtime values (`tokenizer.rs`, `enum DataHolder`).  `CLASSINSTANCE`
inlines the `ClassInstance` struct: class name plus field map. -/
inductive DataHolder where
  | INTEGER32 (n : Int)
  | INTEGER64 (n : Int)
  | FLOAT32 (q : ℚ)
  | FLOAT64 (q : ℚ)
  | BOOLEAN (b : Bool)
  | STRING (s : String)
  | LIST (l : List DataHolder)
  | FUNCTION (s : String)
  | CLASSINSTANCE (className : String) (fields : List (String × DataHolder))
deriving Repr

/-- `DataHolder::get_type` (`tokenizer.rs`): the catch-all arm maps
`CLASSINSTANCE` to `Types::NONE`, and `FUNCTION` to `Types::STRING`. -/
def DataHolder.get_type : DataHolder → Types
  | .INTEGER32 _ => .INTEGER32
  | .INTEGER64 _ => .INTEGER64
  | .FLOAT32 _ => .FLOAT32
  | .FLOAT64 _ => .FLOAT64
  | .BOOLEAN _ => .BOOLEAN
  | .STRING _ => .STRING
  | .LIST _ => .LIST
  | .FUNCTION _ => .STRING
  | .CLASSINSTANCE _ _ => .NONE

/-- `ArithmeticOperator` (`tokenizer.rs`). -/
inductive ArithmeticOperator where
  | Add
  | Subtract
  | Multiply
  | Divide
  | Modulo
  | Not
deriving DecidableEq, Repr

/-- `ComparisonOperator` (`tokenizer.rs`). -/
inductive ComparisonOperator where
  | Equal
  | NotEqual
  | Greater
  | Less
  | GreaterEqual
  | LessEqual
deriving DecidableEq, Repr

/-- `LogicalOperator` (`tokenizer.rs`). -/
inductive LogicalOperator where
  | And
  | Or
deriving DecidableEq, Repr

/-- Exact rational value of `f32::EPSILON` = 2⁻²³. -/
def f32EPSILON : ℚ := 1 / 2 ^ 23

/-- Exact rational value of `f64::EPSILON` = 2⁻⁵². -/
def f64EPSILON : ℚ := 1 / 2 ^ 52

/-- Association-list lookup, modelling `HashMap::get`. -/
def mapLookup {α : Type} : List (String × α) → String → Option α
  | [], _ => none
  | (k, v) :: rest, key => if k = key then some v else mapLookup rest key

/-- Association-list insert-overwrite, modelling `HashMap::insert`. -/
def mapInsert {α : Type} (m : List (String × α)) (key : String) (v : α) :
    List (String × α) :=
  (key, v) :: m.filter (fun p => p.1 ≠ key)

/-- Rust integer division truncates toward zero; `Int.div` in Lean is the
same truncated division. -/
def rustDiv (a b : Int) : Int := Int.tdiv a b

/-- Rust `%` is the remainder of truncated division (sign of the dividend);
`Int.tmod` matches it. -/
def rustMod (a b : Int) : Int := Int.tmod a b

/-- The `Equal` arm of `Runtime::perform_comparison_operation`
(`runtime.rs` lines 670-680): same-tag payload comparison, floats with an
epsilon band, and `Some(BOOLEAN(false))` for every other pair. -/
def comparisonEqualResult (left right : DataHolder) : Option DataHolder :=
  match left, right with
  | .INTEGER32 a, .INTEGER32 b => some (.BOOLEAN (decide (a = b)))
  | .INTEGER64 a, .INTEGER64 b => some (.BOOLEAN (decide (a = b)))
  | .FLOAT32 a, .FLOAT32 b => some (.BOOLEAN (decide (|a - b| < f32EPSILON)))
  | .FLOAT64 a, .FLOAT64 b => some (.BOOLEAN (decide (|a - b| < f64EPSILON)))
  | .STRING a, .STRING b => some (.BOOLEAN (decide (a = b)))
  | .BOOLEAN a, .BOOLEAN b => some (.BOOLEAN (decide (a = b)))
  | _, _ => some (.BOOLEAN false)

/-- The `Greater` arm of `Runtime::perform_comparison_operation`
(`runtime.rs` lines 688-696). -/
def comparisonGreaterResult (left right : DataHolder) : Option DataHolder :=
  match left, right with
  | .INTEGER32 a, .INTEGER32 b => some (.BOOLEAN (decide (a > b)))
  | .INTEGER64 a, .INTEGER64 b => some (.BOOLEAN (decide (a > b)))
  | .FLOAT32 a, .FLOAT32 b => some (.BOOLEAN (decide (a > b)))
  | .FLOAT64 a, .FLOAT64 b => some (.BOOLEAN (decide (a > b)))
  | _, _ => none

/-- The `Less` arm of `Runtime::perform_comparison_operation`
(`runtime.rs` lines 697-705). -/
def comparisonLessResult (left right : DataHolder) : Option DataHolder :=
  match left, right with
  | .INTEGER32 a, .INTEGER32 b => some (.BOOLEAN (decide (a < b)))
  | .INTEGER64 a, .INTEGER64 b => some (.BOOLEAN (decide (a < b)))
  | .FLOAT32 a, .FLOAT32 b => some (.BOOLEAN (decide (a < b)))
  | .FLOAT64 a, .FLOAT64 b => some (.BOOLEAN (decide (a < b)))
  | _, _ => none

/-- The boolean negation wrapper used by the derived comparison operators
(`runtime.rs` lines 682-686, 707-711, 714-718): a `Some(BOOLEAN(r))`
result is negated, anything else becomes `None`. -/
def negateBoolResult : Option DataHolder → Option DataHolder
  | some (.BOOLEAN r) => some (.BOOLEAN (!r))
  | _ => none

/-- `Runtime::perform_arithmetic_operation` (`runtime.rs` lines 578-641). -/
def perform_arithmetic_operation (left : DataHolder)
    (operator : ArithmeticOperator) (right : DataHolder) : Option DataHolder :=
  match operator with
  | .Add =>
    match left, right with
    | .INTEGER32 a, .INTEGER32 b => some (.INTEGER32 (a + b))
    | .INTEGER64 a, .INTEGER64 b => some (.INTEGER64 (a + b))
    | .FLOAT32 a, .FLOAT32 b => some (.FLOAT32 (a + b))
    | .FLOAT64 a, .FLOAT64 b => some (.FLOAT64 (a + b))
    | .STRING a, .STRING b => some (.STRING (a ++ b))
    | _, _ => none
  | .Subtract =>
    match left, right with
    | .INTEGER32 a, .INTEGER32 b => some (.INTEGER32 (a - b))
    | .INTEGER64 a, .INTEGER64 b => some (.INTEGER64 (a - b))
    | .FLOAT32 a, .FLOAT32 b => some (.FLOAT32 (a - b))
    | .FLOAT64 a, .FLOAT64 b => some (.FLOAT64 (a - b))
    | _, _ => none
  | .Multiply =>
    match left, right with
    | .INTEGER32 a, .INTEGER32 b => some (.INTEGER32 (a * b))
    | .INTEGER64 a, .INTEGER64 b => some (.INTEGER64 (a * b))
    | .FLOAT32 a, .FLOAT32 b => some (.FLOAT32 (a * b))
    | .FLOAT64 a, .FLOAT64 b => some (.FLOAT64 (a * b))
    | _, _ => none
  | .Divide =>
    match left, right with
    | .INTEGER32 a, .INTEGER32 b =>
      if b = 0 then none else some (.INTEGER32 (rustDiv a b))
    | .INTEGER64 a, .INTEGER64 b =>
      if b = 0 then none else some (.INTEGER64 (rustDiv a b))
    | .FLOAT32 a, .FLOAT32 b =>
      if b = 0 then none else some (.FLOAT32 (a / b))
    | .FLOAT64 a, .FLOAT64 b =>
      if b = 0 then none else some (.FLOAT64 (a / b))
    | _, _ => none
  | .Modulo =>
    match left, right with
    | .INTEGER32 a, .INTEGER32 b =>
      if b = 0 then none else some (.INTEGER32 (rustMod a b))
    | .INTEGER64 a, .INTEGER64 b =>
      if b = 0 then none else some (.INTEGER64 (rustMod a b))
    | _, _ => none
  | .Not => none

/-- `Runtime::perform_unary_operation` (`runtime.rs` lines 643-666). -/
def perform_unary_operation (operator : ArithmeticOperator)
    (operand : DataHolder) : Option DataHolder :=
  match operator with
  | .Subtract =>
    match operand with
    | .INTEGER32 n => some (.INTEGER32 (-n))
    | .INTEGER64 n => some (.INTEGER64 (-n))
    | .FLOAT32 n => some (.FLOAT32 (-n))
    | .FLOAT64 n => some (.FLOAT64 (-n))
    | _ => none
  | .Add => some operand
  | .Not =>
    match operand with
    | .BOOLEAN b => some (.BOOLEAN (!b))
    | .INTEGER32 i => some (.BOOLEAN (decide (i = 0)))
    | .INTEGER64 i => some (.BOOLEAN (decide (i = 0)))
    | _ => none
  | _ => none

/-- `Runtime::perform_comparison_operation` (`runtime.rs` lines 668-721).
The derived operators compute exactly what the source's recursive calls
compute: `NotEqual` negates the `Equal` arm's result, `GreaterEqual`
negates `Less`, `LessEqual` negates `Greater`, each propagating a
non-boolean (absent) result as `none`. -/
def perform_comparison_operation (left : DataHolder)
    (operator : ComparisonOperator) (right : DataHolder) : Option DataHolder :=
  match operator with
  | .Equal => comparisonEqualResult left right
  | .NotEqual => negateBoolResult (comparisonEqualResult left right)
  | .Greater => comparisonGreaterResult left right
  | .Less => comparisonLessResult left right
  | .GreaterEqual => negateBoolResult (comparisonLessResult left right)
  | .LessEqual => negateBoolResult (comparisonGreaterResult left right)

/-- The truthiness coercion used by `Conditional` and `WhileLoop`
(`runtime.rs` lines 114-123 and 207-216). -/
def truthy : DataHolder → Bool
  | .BOOLEAN b => b
  | .INTEGER32 i => decide (i ≠ 0)
  | .INTEGER64 i => decide (i ≠ 0)
  | .FLOAT32 f => decide (f ≠ 0)
  | .FLOAT64 f => decide (f ≠ 0)
  | .STRING s => !s.isEmpty
  | .LIST l => !l.isEmpty
  | _ => false

/-- `Runtime::get_default_value` (`runtime.rs` lines 564-575). -/
def get_default_value : Types → DataHolder
  | .INTEGER32 => .INTEGER32 0
  | .INTEGER64 => .INTEGER64 0
  | .FLOAT32 => .FLOAT32 0
  | .FLOAT64 => .FLOAT64 0
  | .BOOLEAN => .BOOLEAN false
  | .STRING => .STRING ""
  | .LIST => .LIST []
  | _ => .INTEGER32 0

/-- `FunctionParameter` (`AstTree.rs`). -/
structure FunctionParameter where
  name : String
  data_type : Types
deriving Repr

mutual

/-- `AstExpressions` (`AstTree.rs`).  The Rust `Variable` variant is named
`var` here (`variable` is a Lean command keyword). -/
inductive AstExpressions where
  | BinaryOperation (left : AstExpressions) (operator : ArithmeticOperator)
      (right : AstExpressions)
  | UnaryOperation (operator : ArithmeticOperator) (operand : AstExpressions)
  | ComparisonOperation (left : AstExpressions) (operator : ComparisonOperator)
      (right : AstExpressions)
  | LogicalOperation (left : AstExpressions) (operator : LogicalOperator)
      (right : AstExpressions)
  | Value (value : DataHolder)
  | var (name : String)
  | Literal (value : String)
  | ListLiteral (elements : List AstExpressions)
  | FunctionCall (name : String) (arguments : List AstExpressions)
  | MemberAccess (object : AstExpressions) (member : String)
  | MethodCall (object : AstExpressions) (method : String)
      (arguments : List AstExpressions)
  | Grouping (expression : AstExpressions)

/-- `Statement` (`AstTree.rs`).  `ClassMeta`'s `HashMap<String, Statement>`
is an association list here; the dead `Function` variant is omitted. -/
inductive Statement where
  | VariableDeclaration (name : String) (data_type : Types)
      (value : AstExpressions)
  | ListDeclaration (name : String) (elements : List AstExpressions)
      (size : Nat)
  | FunctionDeclaration (name : String) (params : List FunctionParameter)
      (body : List Statement)
  | Conditional (condition : AstExpressions) (then_branch : List Statement)
      (else_branch : Option (List Statement))
  | ForLoop (variable_name : String) (start : AstExpressions)
      (stop : AstExpressions) (step : AstExpressions) (body : List Statement)
  | WhileLoop (condition : AstExpressions) (body : List Statement)
  | Block (statements : List Statement)
  | Assignment (name : String) (value : AstExpressions)
  | MemberAssignment (object : AstExpressions) (member : String)
      (value : AstExpressions)
  | ExpressionStatement (expression : AstExpressions)
  | Return (value : Option AstExpressions)
  | ClassMeta (name : String) (fields : List (String × Statement))
  | ClassAttribute (name : String) (data_type : Types)

end

/-- `Environment` (`Environment.rs`): variable bindings plus class registry. -/
structure Environment where
  vars : List (String × DataHolder)
  classes : List (String × Statement)

/-- `Environment::new`. -/
def Environment.new : Environment := ⟨[], []⟩

/-- `Environment::set_variable`. -/
def Environment.set_variable (env : Environment) (name : String)
    (value : DataHolder) : Environment :=
  { env with vars := mapInsert env.vars name value }

/-- `Environment::get_variable`. -/
def Environment.get_variable (env : Environment) (name : String) :
    Option DataHolder :=
  mapLookup env.vars name

/-- `Environment::set_class`. -/
def Environment.set_class (env : Environment) (name : String)
    (fields : Statement) : Environment :=
  { env with classes := mapInsert env.classes name fields }

/-- `Environment::get_class`. -/
def Environment.get_class (env : Environment) (name : String) :
    Option Statement :=
  mapLookup env.classes name

/-- `Environment::is_class_meta_exists`. -/
def Environment.is_class_meta_exists (env : Environment) (name : String) :
    Bool :=
  (mapLookup env.classes name).isSome

/-- `UserFunction` (`runtime.rs`). -/
structure UserFunction where
  name : String
  params : List FunctionParameter
  body : List Statement
  is_method : Bool

/-- `ExecutionResult` (`runtime.rs`). -/
inductive ExecutionResult where
  | None
  | Return (v : DataHolder)
  | Continue

/-- The mutable state of `Runtime` (`runtime.rs`): environment, function
registry, return-unwinding state, and the method context (which holds the
current `self` instance when set). -/
structure RState where
  environment : Environment
  functions : List (String × UserFunction)
  returning : Bool
  return_value : Option DataHolder
  method_context : Option DataHolder

/-- `Runtime::new`. -/
def RState.new : RState :=
  { environment := Environment.new
    functions := []
    returning := false
    return_value := none
    method_context := none }

/-- Width marker distinguishing the `INTEGER32` and `INTEGER64` arms of the
for-loop execution (`runtime.rs` lines 166-195). -/
inductive IntWidth where
  | w32
  | w64
deriving DecidableEq, Repr

/-- Wrap an integer in the `DataHolder` constructor for the given width. -/
def mkIntVal : IntWidth → Int → DataHolder
  | .w32, n => .INTEGER32 n
  | .w64, n => .INTEGER64 n

/-- The result type of expression evaluation in the model: the outer
`Option` is fuel exhaustion (the Rust code has no such layer; it simply
recurses), the inner `Option DataHolder` is the Rust
`Option<DataHolder>` "no value" error signal, and the state is the
`&mut self` threading. -/
abbrev EvalRes := Option (Option DataHolder × RState)

/-- The result of statement execution: Rust returns an `ExecutionResult`
and mutates `self`. -/
abbrev ExecRes := Option (ExecutionResult × RState)

/-- The Rust `?` operator on `Option<DataHolder>` inside
`evaluate_expression`: a "no value" result short-circuits, fuel exhaustion
propagates. -/
def bindEval (x : EvalRes) (k : DataHolder → RState → EvalRes) : EvalRes :=
  match x with
  | none => none
  | some (none, s) => some (none, s)
  | some (some v, s) => k v s

/-- The inline `Not` handling of `evaluate_expression`'s `UnaryOperation`
arm (`runtime.rs` lines 292-303): `Not` is special-cased, every other
operator goes through `perform_unary_operation`. -/
def unaryEvalResult (operator : ArithmeticOperator) (v : DataHolder) :
    Option DataHolder :=
  match operator with
  | .Not =>
    match v with
    | .BOOLEAN b => some (.BOOLEAN (!b))
    | .INTEGER32 i => some (.BOOLEAN (decide (i = 0)))
    | .INTEGER64 i => some (.BOOLEAN (decide (i = 0)))
    | _ => none
  | _ => perform_unary_operation operator v

/-- The `if let DataHolder::BOOLEAN(false) = left_val` test of the `And`
arm (`runtime.rs` line 317). -/
def isBoolFalse : DataHolder → Bool
  | .BOOLEAN false => true
  | _ => false

/-- The `if let DataHolder::BOOLEAN(true) = left_val` test of the `Or`
arm (`runtime.rs` line 329). -/
def isBoolTrue : DataHolder → Bool
  | .BOOLEAN true => true
  | _ => false

/-- The operand-pair combination of the `And` arm (`runtime.rs` lines
321-325). -/
def logicalAndResult : DataHolder → DataHolder → Option DataHolder
  | .BOOLEAN a, .BOOLEAN b => some (.BOOLEAN (a && b))
  | _, _ => none

/-- The operand-pair combination of the `Or` arm (`runtime.rs` lines
333-337). -/
def logicalOrResult : DataHolder → DataHolder → Option DataHolder
  | .BOOLEAN a, .BOOLEAN b => some (.BOOLEAN (a || b))
  | _, _ => none

/-- The `MemberAccess` field projection (`runtime.rs` lines 358-367). -/
def memberAccessResult (v : DataHolder) (member : String) :
    Option DataHolder :=
  match v with
  | .CLASSINSTANCE _ fields => mapLookup fields member
  | _ => none

/-- The value of a nonempty all-digit run, as accumulated by Rust's
integer `from_str` (`str::parse::<iN>`). -/
def digitsValue (cs : List Char) : Nat :=
  cs.foldl (fun a c => 10 * a + (c.toNat - '0'.toNat)) 0

/-- Rust `str::parse` for a signed integer type with range `[lo, hi]`:
an optional `+`/`-` sign followed by a nonempty run of ASCII digits whose
value fits in the range.  Rust detects overflow during accumulation, which
for a pure digit string is equivalent to the final range check. -/
def parseSignedIntRange (lo hi : Int) (s : String) : Option Int :=
  let p : Int × List Char :=
    match s.data with
    | '+' :: r => (1, r)
    | '-' :: r => (-1, r)
    | r => (1, r)
  if p.2 = [] then none
  else if p.2.all Char.isDigit then
    let v : Int := p.1 * digitsValue p.2
    if lo ≤ v ∧ v ≤ hi then some v else none
  else none

/-- Rust `word.parse::<i32>()`. -/
def parseI32 (s : String) : Option Int :=
  parseSignedIntRange (-(2 ^ 31)) (2 ^ 31 - 1) s

/-- Rust `word.parse::<i64>()`. -/
def parseI64 (s : String) : Option Int :=
  parseSignedIntRange (-(2 ^ 63)) (2 ^ 63 - 1) s

/-- Truncation toward zero, the semantics of Rust's float-to-int `as`
cast on in-range values. -/
def ratTrunc (q : ℚ) : Int := Int.tdiv q.num q.den

/-- The built-in function registry (`Functions.rs`).  `print`/`println`
write to stdout (dropped here) and return `INTEGER32 0`.  `current_time`
reads the system clock; the model fixes the clock (the verified claims do
not involve it).  String rendering of floats is done on the rational
payload. -/
def builtinCall (name : String) (args : List DataHolder) : Option DataHolder :=
  if name = "print" ∨ name = "println" then
    some (.INTEGER32 0)
  else if name = "len" then
    match args with
    | [.STRING s] => some (.INTEGER32 (s.utf8ByteSize : Int))
    | [.LIST l] => some (.INTEGER32 (l.length : Int))
    | _ => none
  else if name = "current_time" then
    some (.INTEGER64 0)
  else if name = "to_string" then
    match args with
    | [.INTEGER32 n] => some (.STRING (toString n))
    | [.INTEGER64 n] => some (.STRING (toString n))
    | [.FLOAT32 q] => some (.STRING (toString q))
    | [.FLOAT64 q] => some (.STRING (toString q))
    | [.BOOLEAN b] => some (.STRING (toString b))
    | [.STRING s] => some (.STRING s)
    | _ => none
  else if name = "parse_int" then
    match args with
    | [.STRING s] => (parseI32 s).map (.INTEGER32 ·)
    | [.INTEGER32 n] => some (.INTEGER32 n)
    | [.INTEGER64 n] => some (.INTEGER32 n)
    | [.FLOAT32 q] => some (.INTEGER32 (ratTrunc q))
    | [.FLOAT64 q] => some (.INTEGER32 (ratTrunc q))
    | _ => none
  else
    none

/-- The field-map initialisation loop of `Runtime::create_class_instance`
(`runtime.rs` lines 436-448): declared attributes get their type default,
method declarations and anything else are skipped. -/
def buildDefaultFields (fields : List (String × Statement)) :
    List (String × DataHolder) :=
  fields.foldl
    (fun acc p =>
      match p.2 with
      | .ClassAttribute _ dt => mapInsert acc p.1 (get_default_value dt)
      | _ => acc)
    []

mutual

/-- `Runtime::evaluate_expression` (`runtime.rs` lines 266-427).  The
`fuel` parameter bounds recursion depth; `none` means fuel ran out (the
Rust code simply recurses on the host stack). -/
def evaluate_expression (fuel : Nat) (s : RState) (e : AstExpressions) :
    EvalRes :=
  match fuel with
  | 0 => none
  | f + 1 =>
    match e with
    | .Value v => some (some v, s)
    | .var name =>
      if name = "self" then
        match s.method_context with
        | some inst => some (some inst, s)
        | none => some (s.environment.get_variable name, s)
      else
        some (s.environment.get_variable name, s)
    | .Literal v => some (some (.STRING v), s)
    | .BinaryOperation left operator right =>
      bindEval (evaluate_expression f s left) fun lv s1 =>
        bindEval (evaluate_expression f s1 right) fun rv s2 =>
          some (perform_arithmetic_operation lv operator rv, s2)
    | .UnaryOperation operator operand =>
      bindEval (evaluate_expression f s operand) fun v s1 =>
        some (unaryEvalResult operator v, s1)
    | .ComparisonOperation left operator right =>
      bindEval (evaluate_expression f s left) fun lv s1 =>
        bindEval (evaluate_expression f s1 right) fun rv s2 =>
          some (perform_comparison_operation lv operator rv, s2)
    | .LogicalOperation left operator right =>
      bindEval (evaluate_expression f s left) fun lv s1 =>
        match operator with
        | .And =>
          if isBoolFalse lv then
            some (some (.BOOLEAN false), s1)
          else
            bindEval (evaluate_expression f s1 right) fun rv s2 =>
              some (logicalAndResult lv rv, s2)
        | .Or =>
          if isBoolTrue lv then
            some (some (.BOOLEAN true), s1)
          else
            bindEval (evaluate_expression f s1 right) fun rv s2 =>
              some (logicalOrResult lv rv, s2)
    | .ListLiteral elements =>
      match evalArgs f s elements with
      | none => none
      | some (none, s1) => some (none, s1)
      | some (some vs, s1) => some (some (.LIST vs), s1)
    | .MemberAccess object member =>
      bindEval (evaluate_expression f s object) fun v s1 =>
        some (memberAccessResult v member, s1)
    | .MethodCall object method arguments =>
      match evaluate_expression f s object with
      | none => none
      | some (none, s1) => some (none, s1)
      | some (some obj, s1) =>
        match obj with
        | .CLASSINSTANCE cn _ =>
          match evalArgs f s1 arguments with
          | none => none
          | some (none, s2) => some (none, s2)
          | some (some vals, s2) => call_method f s2 cn method obj vals
        | _ => some (none, s1)
    | .FunctionCall name arguments =>
      if s.environment.is_class_meta_exists name then
        create_class_instance f s name arguments
      else
        match evalArgs f s arguments with
        | none => none
        | some (none, s1) => some (none, s1)
        | some (some vals, s1) => call_function f s1 name vals
    | .Grouping expression => evaluate_expression f s expression

/-- The left-to-right argument-evaluation loops of `evaluate_expression`
(`runtime.rs` lines 343-353, 386-393, 412-419, 457-464): the first failed
element aborts with "no value". -/
def evalArgs (fuel : Nat) (s : RState) (args : List AstExpressions) :
    Option (Option (List DataHolder) × RState) :=
  match fuel with
  | 0 => none
  | f + 1 =>
    match args with
    | [] => some (some [], s)
    | a :: rest =>
      match evaluate_expression f s a with
      | none => none
      | some (none, s1) => some (none, s1)
      | some (some v, s1) =>
        match evalArgs f s1 rest with
        | none => none
        | some (none, s2) => some (none, s2)
        | some (some vs, s2) => some (some (v :: vs), s2)

/-- `Runtime::create_class_instance` (`runtime.rs` lines 430-476). -/
def create_class_instance (fuel : Nat) (s : RState) (class_name : String)
    (arguments : List AstExpressions) : EvalRes :=
  match fuel with
  | 0 => none
  | f + 1 =>
    match s.environment.get_class class_name with
    | some (.ClassMeta name fields) =>
      let inst := DataHolder.CLASSINSTANCE name (buildDefaultFields fields)
      if (mapLookup fields "__init__").isSome then
        match evalArgs f s arguments with
        | none => none
        | some (none, s1) => some (none, s1)
        | some (some vals, s1) =>
          match call_method f s1 class_name "__init__" inst vals with
          | none => none
          | some (_, s2) => some (some inst, s2)
      else
        some (some inst, s)
    | _ => some (none, s)

/-- `Runtime::call_method` (`runtime.rs` lines 479-562).  Note that the
method environment starts from `Environment::new()`: only the caller's
variables are copied, so the method sees an empty class registry. -/
def call_method (fuel : Nat) (s : RState) (class_name method_name : String)
    (inst : DataHolder) (args : List DataHolder) : EvalRes :=
  match fuel with
  | 0 => none
  | f + 1 =>
    match s.environment.get_class class_name with
    | some (.ClassMeta _ fields) =>
      match mapLookup fields method_name with
      | some (.FunctionDeclaration _ params body) =>
        let old_context := s.method_context
        let s1 : RState := { s with method_context := some inst }
        let menv :=
          s1.environment.vars.foldl
            (fun env p => env.set_variable p.1 p.2) Environment.new
        let menv := menv.set_variable "self" inst
        let non_self_params := params.filter (fun p => p.name ≠ "self")
        if args.length ≠ non_self_params.length then
          some (none, { s1 with method_context := old_context })
        else
          let menv :=
            (non_self_params.zip args).foldl
              (fun env pa => env.set_variable pa.1.name pa.2) menv
          let old_env := s1.environment
          let old_returning := s1.returning
          let old_return_value := s1.return_value
          let s2 : RState :=
            { s1 with environment := menv, returning := false,
                      return_value := none }
          match execStmtList f s2 body with
          | none => none
          | some (_, s3) =>
            let return_val := s3.return_value.getD (.INTEGER32 0)
            some (some return_val,
              { s3 with environment := old_env, returning := old_returning,
                        return_value := old_return_value,
                        method_context := old_context })
      | _ => some (none, s)
    | _ => some (none, s)

/-- `Runtime::call_function` (`runtime.rs` lines 723-771), falling back to
the built-in registry (`execute_builtin_function`) for unregistered
names. -/
def call_function (fuel : Nat) (s : RState) (func_name : String)
    (args : List DataHolder) : EvalRes :=
  match fuel with
  | 0 => none
  | f + 1 =>
    match mapLookup s.functions func_name with
    | some func =>
      let fenv :=
        s.environment.vars.foldl
          (fun env p => env.set_variable p.1 p.2) Environment.new
      let non_self_params := func.params.filter (fun p => p.name ≠ "self")
      if args.length ≠ non_self_params.length then
        some (none, s)
      else
        let fenv :=
          (non_self_params.zip args).foldl
            (fun env pa => env.set_variable pa.1.name pa.2) fenv
        let old_env := s.environment
        let old_returning := s.returning
        let old_return_value := s.return_value
        let s1 : RState :=
          { s with environment := fenv, returning := false,
                   return_value := none }
        match execStmtList f s1 func.body with
        | none => none
        | some (_, s2) =>
          let return_val := s2.return_value.getD (.INTEGER32 0)
          some (some return_val,
            { s2 with environment := old_env, returning := old_returning,
                      return_value := old_return_value })
    | none => some (builtinCall func_name args, s)

/-- `Runtime::execute_statement` (`runtime.rs` lines 60-263). -/
def execute_statement (fuel : Nat) (s : RState) (st : Statement) : ExecRes :=
  match fuel with
  | 0 => none
  | f + 1 =>
    if s.returning then
      some (.Return (s.return_value.getD (.INTEGER32 0)), s)
    else
      match st with
      | .ClassMeta name fields =>
        some (.Continue,
          { s with environment :=
              s.environment.set_class name (.ClassMeta name fields) })
      | .VariableDeclaration name _ value =>
        match evaluate_expression f s value with
        | none => none
        | some (none, s1) => some (.Continue, s1)
        | some (some v, s1) =>
          some (.Continue,
            { s1 with environment := s1.environment.set_variable name v })
      | .ListDeclaration _ _ _ => some (.Continue, s)
      | .Assignment name value =>
        match evaluate_expression f s value with
        | none => none
        | some (none, s1) => some (.Continue, s1)
        | some (some v, s1) =>
          some (.Continue,
            { s1 with environment := s1.environment.set_variable name v })
      | .MemberAssignment object member value =>
        match evaluate_expression f s value with
        | none => none
        | some (none, s1) => some (.Continue, s1)
        | some (some new_value, s1) =>
          match object with
          | .var var_name =>
            match s1.environment.get_variable var_name with
            | some (.CLASSINSTANCE cn flds) =>
              let updated : DataHolder :=
                .CLASSINSTANCE cn (mapInsert flds member new_value)
              some (.Continue,
                { s1 with environment :=
                    s1.environment.set_variable var_name updated })
            | some _ => some (.Continue, s1)
            | none => some (.Continue, s1)
          | _ => some (.Continue, s1)
      | .Conditional condition then_branch else_branch =>
        match evaluate_expression f s condition with
        | none => none
        | some (none, s1) => some (.Continue, s1)
        | some (some cv, s1) =>
          if truthy cv then
            match execStmtList f s1 then_branch with
            | none => none
            | some (.Return v, s2) => some (.Return v, s2)
            | some (_, s2) => some (.Continue, s2)
          else
            match else_branch with
            | some else_statements =>
              match execStmtList f s1 else_statements with
              | none => none
              | some (.Return v, s2) => some (.Return v, s2)
              | some (_, s2) => some (.Continue, s2)
            | none => some (.Continue, s1)
      | .Block statements =>
        match execStmtList f s statements with
        | none => none
        | some (.Return v, s2) => some (.Return v, s2)
        | some (_, s2) => some (.Continue, s2)
      | .ExpressionStatement expression =>
        match evaluate_expression f s expression with
        | none => none
        | some (_, s1) => some (.Continue, s1)
      | .ForLoop variable_name start stop step body =>
        match evaluate_expression f s start with
        | none => none
        | some (sv, s1) =>
          match evaluate_expression f s1 stop with
          | none => none
          | some (ev, s2) =>
            match evaluate_expression f s2 step with
            | none => none
            | some (pv, s3) =>
              match sv, ev, pv with
              | some (.INTEGER32 a), some (.INTEGER32 b),
                some (.INTEGER32 c) =>
                execForLoop f s3 variable_name a b c .w32 body
              | some (.INTEGER64 a), some (.INTEGER64 b),
                some (.INTEGER64 c) =>
                execForLoop f s3 variable_name a b c .w64 body
              | _, _, _ => some (.Continue, s3)
      | .WhileLoop condition body => execWhileLoop f s condition body
      | .FunctionDeclaration name params body =>
        some (.Continue,
          { s with functions :=
              mapInsert s.functions name ⟨name, params, body, false⟩ })
      | .Return value =>
        match value with
        | some expr =>
          match evaluate_expression f s expr with
          | none => none
          | some (r, s1) =>
            let return_val := r.getD (.INTEGER32 0)
            some (.Return return_val,
              { s1 with returning := true, return_value := some return_val })
        | none =>
          some (.Return (.INTEGER32 0),
            { s with returning := true,
                     return_value := some (.INTEGER32 0) })
      | .ClassAttribute _ _ => some (.Continue, s)

/-- The `for stmt in body { ... if Return return }` loops that run
statement blocks (`runtime.rs` lines 126-131, 133-138, 145-150, 171-176,
186-191, 222-227, 539-544, 754-759). -/
def execStmtList (fuel : Nat) (s : RState) (stmts : List Statement) :
    ExecRes :=
  match fuel with
  | 0 => none
  | f + 1 =>
    match stmts with
    | [] => some (.Continue, s)
    | st :: rest =>
      match execute_statement f s st with
      | none => none
      | some (.Return v, s1) => some (.Return v, s1)
      | some (_, s1) => execStmtList f s1 rest

/-- The integer for-loop of `Runtime::execute_statement` (`runtime.rs`
lines 166-195), parametric in the integer width. -/
def execForLoop (fuel : Nat) (s : RState) (variable_name : String)
    (cur stop step : Int) (w : IntWidth) (body : List Statement) : ExecRes :=
  match fuel with
  | 0 => none
  | f + 1 =>
    if (step > 0 ∧ cur < stop) ∨ (step < 0 ∧ cur > stop) then
      let s1 : RState :=
        { s with environment :=
            s.environment.set_variable variable_name (mkIntVal w cur) }
      match execStmtList f s1 body with
      | none => none
      | some (.Return v, s2) => some (.Return v, s2)
      | some (_, s2) =>
        execForLoop f s2 variable_name (cur + step) stop step w body
    else
      some (.Continue, s)

/-- The while-loop of `Runtime::execute_statement` (`runtime.rs` lines
204-233). -/
def execWhileLoop (fuel : Nat) (s : RState) (condition : AstExpressions)
    (body : List Statement) : ExecRes :=
  match fuel with
  | 0 => none
  | f + 1 =>
    match evaluate_expression f s condition with
    | none => none
    | some (none, s1) => some (.Continue, s1)
    | some (some cv, s1) =>
      if truthy cv then
        match execStmtList f s1 body with
        | none => none
        | some (.Return v, s2) => some (.Return v, s2)
        | some (_, s2) => execWhileLoop f s2 condition body
      else
        some (.Continue, s1)

end

/-- Outcomes of `bindEval` restore the environment `e0` whenever the bound
computation and its continuation do. -/
theorem bindEval_env {x : EvalRes} {k : DataHolder → RState → EvalRes}
    {e0 : Environment}
    (hx : ∀ r s', x = some (r, s') → s'.environment = e0)
    (hk : ∀ v s', x = some (some v, s') →
      ∀ r s'', k v s' = some (r, s'') → s''.environment = e0) :
    ∀ r s', bindEval x k = some (r, s') → s'.environment = e0 := by
  intro r s' h
  rcases x with _ | ⟨_ | v, s2⟩
  · simp [bindEval] at h
  · simp only [bindEval, Option.some.injEq, Prod.mk.injEq] at h
    obtain ⟨-, rfl⟩ := h
    exact hx _ _ rfl
  · exact hk v s2 rfl r s' (by simpa [bindEval] using h)

/-- Expression evaluation never changes the caller's variable environment:
every mutation made during a user-function or method call happens in the
callee environment, which is swapped out for the saved one on return
(`runtime.rs` lines 530/550 and 747/763), and all other expression forms
only read the environment. -/
theorem eval_preserves_env : ∀ fuel : Nat,
    (∀ s e r s1, evaluate_expression fuel s e = some (r, s1) →
        s1.environment = s.environment)
  ∧ (∀ s args r s1, evalArgs fuel s args = some (r, s1) →
        s1.environment = s.environment)
  ∧ (∀ s cn ags r s1, create_class_instance fuel s cn ags = some (r, s1) →
        s1.environment = s.environment)
  ∧ (∀ s cn mn inst ags r s1,
        call_method fuel s cn mn inst ags = some (r, s1) →
        s1.environment = s.environment)
  ∧ (∀ s fn ags r s1, call_function fuel s fn ags = some (r, s1) →
        s1.environment = s.environment) := by
  intro fuel
  induction fuel with
  | zero =>
    refine ⟨fun s e r s1 h => ?_, fun s a r s1 h => ?_,
      fun s cn ags r s1 h => ?_, fun s cn mn inst ags r s1 h => ?_,
      fun s fn ags r s1 h => ?_⟩ <;>
      simp [evaluate_expression, evalArgs, create_class_instance,
        call_method, call_function] at h
  | succ f ih =>
    obtain ⟨ihE, ihA, ihC, ihM, ihF⟩ := ih
    refine ⟨?_, ?_, ?_, ?_, ?_⟩
    · intro s e r s1 h
      cases e with
      | Value v =>
        simp only [evaluate_expression, Option.some.injEq, Prod.mk.injEq] at h
        obtain ⟨-, rfl⟩ := h
        rfl
      | var name =>
        simp only [evaluate_expression] at h
        split at h
        · split at h <;>
            · simp only [Option.some.injEq, Prod.mk.injEq] at h
              obtain ⟨-, rfl⟩ := h
              rfl
        · simp only [Option.some.injEq, Prod.mk.injEq] at h
          obtain ⟨-, rfl⟩ := h
          rfl
      | Literal v =>
        simp only [evaluate_expression, Option.some.injEq, Prod.mk.injEq] at h
        obtain ⟨-, rfl⟩ := h
        rfl
      | BinaryOperation l op rr =>
        simp only [evaluate_expression] at h
        refine bindEval_env (fun r' s' h' => ihE _ _ _ _ h') ?_ r s1 h
        intro lv s2 hl r' s'' h''
        refine bindEval_env
          (fun r2 s2' h2 => (ihE _ _ _ _ h2).trans (ihE _ _ _ _ hl))
          ?_ r' s'' h''
        intro rv s3 hr r3 s4 h3
        simp only [Option.some.injEq, Prod.mk.injEq] at h3
        obtain ⟨-, rfl⟩ := h3
        exact (ihE _ _ _ _ hr).trans (ihE _ _ _ _ hl)
      | UnaryOperation op operand =>
        simp only [evaluate_expression] at h
        refine bindEval_env (fun r' s' h' => ihE _ _ _ _ h') ?_ r s1 h
        intro v s2 hv r' s'' h''
        simp only [Option.some.injEq, Prod.mk.injEq] at h''
        obtain ⟨-, rfl⟩ := h''
        exact ihE _ _ _ _ hv
      | ComparisonOperation l op rr =>
        simp only [evaluate_expression] at h
        refine bindEval_env (fun r' s' h' => ihE _ _ _ _ h') ?_ r s1 h
        intro lv s2 hl r' s'' h''
        refine bindEval_env
          (fun r2 s2' h2 => (ihE _ _ _ _ h2).trans (ihE _ _ _ _ hl))
          ?_ r' s'' h''
        intro rv s3 hr r3 s4 h3
        simp only [Option.some.injEq, Prod.mk.injEq] at h3
        obtain ⟨-, rfl⟩ := h3
        exact (ihE _ _ _ _ hr).trans (ihE _ _ _ _ hl)
      | LogicalOperation l op rr =>
        simp only [evaluate_expression] at h
        refine bindEval_env (fun r' s' h' => ihE _ _ _ _ h') ?_ r s1 h
        intro lv s2 hl r' s'' h''
        have henv := ihE _ _ _ _ hl
        cases op with
        | And =>
          simp only [] at h''
          split at h''
          · simp only [Option.some.injEq, Prod.mk.injEq] at h''
            obtain ⟨-, rfl⟩ := h''
            exact henv
          · refine bindEval_env
              (fun r2 s2' h2 => (ihE _ _ _ _ h2).trans henv) ?_ r' s'' h''
            intro rv s3 hr r3 s4 h3
            simp only [Option.some.injEq, Prod.mk.injEq] at h3
            obtain ⟨-, rfl⟩ := h3
            exact (ihE _ _ _ _ hr).trans henv
        | Or =>
          simp only [] at h''
          split at h''
          · simp only [Option.some.injEq, Prod.mk.injEq] at h''
            obtain ⟨-, rfl⟩ := h''
            exact henv
          · refine bindEval_env
              (fun r2 s2' h2 => (ihE _ _ _ _ h2).trans henv) ?_ r' s'' h''
            intro rv s3 hr r3 s4 h3
            simp only [Option.some.injEq, Prod.mk.injEq] at h3
            obtain ⟨-, rfl⟩ := h3
            exact (ihE _ _ _ _ hr).trans henv
      | ListLiteral elements =>
        simp only [evaluate_expression] at h
        rcases ha : evalArgs f s elements with _ | ⟨_ | vs, s2⟩
        · simp only [ha] at h
          exact Option.noConfusion h
        · simp only [ha, Option.some.injEq, Prod.mk.injEq] at h
          obtain ⟨-, rfl⟩ := h
          exact ihA _ _ _ _ ha
        · simp only [ha, Option.some.injEq, Prod.mk.injEq] at h
          obtain ⟨-, rfl⟩ := h
          exact ihA _ _ _ _ ha
      | MemberAccess object member =>
        simp only [evaluate_expression] at h
        refine bindEval_env (fun r' s' h' => ihE _ _ _ _ h') ?_ r s1 h
        intro v s2 hv r' s'' h''
        simp only [Option.some.injEq, Prod.mk.injEq] at h''
        obtain ⟨-, rfl⟩ := h''
        exact ihE _ _ _ _ hv
      | MethodCall object method arguments =>
        simp only [evaluate_expression] at h
        rcases ho : evaluate_expression f s object with _ | ⟨_ | obj, s2⟩
        · simp only [ho] at h
          exact Option.noConfusion h
        · simp only [ho, Option.some.injEq, Prod.mk.injEq] at h
          obtain ⟨-, rfl⟩ := h
          exact ihE _ _ _ _ ho
        · simp only [ho] at h
          cases obj
          case CLASSINSTANCE cn flds =>
            rcases ha : evalArgs f s2 arguments with _ | ⟨_ | vals, s3⟩
            · simp only [ha] at h
              exact Option.noConfusion h
            · simp only [ha, Option.some.injEq, Prod.mk.injEq] at h
              obtain ⟨-, rfl⟩ := h
              exact (ihA _ _ _ _ ha).trans (ihE _ _ _ _ ho)
            · simp only [ha] at h
              exact (ihM _ _ _ _ _ _ _ h).trans
                ((ihA _ _ _ _ ha).trans (ihE _ _ _ _ ho))
          all_goals
            simp only [Option.some.injEq, Prod.mk.injEq] at h
          all_goals
            obtain ⟨-, rfl⟩ := h
          all_goals
            exact ihE _ _ _ _ ho
      | FunctionCall name arguments =>
        simp only [evaluate_expression] at h
        split at h
        · exact ihC _ _ _ _ _ h
        · rcases ha : evalArgs f s arguments with _ | ⟨_ | vals, s2⟩
          · simp only [ha] at h
            exact Option.noConfusion h
          · simp only [ha, Option.some.injEq, Prod.mk.injEq] at h
            obtain ⟨-, rfl⟩ := h
            exact ihA _ _ _ _ ha
          · simp only [ha] at h
            exact (ihF _ _ _ _ _ h).trans (ihA _ _ _ _ ha)
      | Grouping inner =>
        simp only [evaluate_expression] at h
        exact ihE _ _ _ _ h
    · intro s args r s1 h
      cases args with
      | nil =>
        simp only [evalArgs, Option.some.injEq, Prod.mk.injEq] at h
        obtain ⟨-, rfl⟩ := h
        rfl
      | cons a rest =>
        simp only [evalArgs] at h
        rcases he : evaluate_expression f s a with _ | ⟨_ | v, s2⟩
        · simp only [he] at h
          exact Option.noConfusion h
        · simp only [he, Option.some.injEq, Prod.mk.injEq] at h
          obtain ⟨-, rfl⟩ := h
          exact ihE _ _ _ _ he
        · simp only [he] at h
          rcases ha : evalArgs f s2 rest with _ | ⟨_ | vs, s3⟩
          · simp only [ha] at h
            exact Option.noConfusion h
          · simp only [ha, Option.some.injEq, Prod.mk.injEq] at h
            obtain ⟨-, rfl⟩ := h
            exact (ihA _ _ _ _ ha).trans (ihE _ _ _ _ he)
          · simp only [ha, Option.some.injEq, Prod.mk.injEq] at h
            obtain ⟨-, rfl⟩ := h
            exact (ihA _ _ _ _ ha).trans (ihE _ _ _ _ he)
    · intro s cn ags r s1 h
      rcases hg : s.environment.get_class cn with _ | cd
      · simp only [create_class_instance, hg, Option.some.injEq,
          Prod.mk.injEq] at h
        obtain ⟨-, rfl⟩ := h
        rfl
      · cases cd
        case ClassMeta name fields =>
          simp only [create_class_instance, hg] at h
          split at h
          · rcases ha : evalArgs f s ags with _ | ⟨_ | vals, s2⟩
            · simp only [ha] at h
              exact Option.noConfusion h
            · simp only [ha, Option.some.injEq, Prod.mk.injEq] at h
              obtain ⟨-, rfl⟩ := h
              exact ihA _ _ _ _ ha
            · simp only [ha] at h
              rcases hm : call_method f s2 cn "__init__"
                  (DataHolder.CLASSINSTANCE name (buildDefaultFields fields))
                  vals with _ | ⟨rr, s3⟩
              · simp only [hm] at h
                exact Option.noConfusion h
              · simp only [hm, Option.some.injEq, Prod.mk.injEq] at h
                obtain ⟨-, rfl⟩ := h
                exact (ihM _ _ _ _ _ _ _ hm).trans (ihA _ _ _ _ ha)
          · simp only [Option.some.injEq, Prod.mk.injEq] at h
            obtain ⟨-, rfl⟩ := h
            rfl
        all_goals
          simp only [create_class_instance, hg, Option.some.injEq,
            Prod.mk.injEq] at h
        all_goals
          obtain ⟨-, rfl⟩ := h
        all_goals
          rfl
    · intro s cn mn inst ags r s1 h
      rcases hg : s.environment.get_class cn with _ | cd
      · simp only [call_method, hg, Option.some.injEq, Prod.mk.injEq] at h
        obtain ⟨-, rfl⟩ := h
        rfl
      · cases cd
        case ClassMeta name fields =>
          simp only [call_method, hg] at h
          rcases hf : mapLookup fields mn with _ | fd
          · simp only [hf, Option.some.injEq, Prod.mk.injEq] at h
            obtain ⟨-, rfl⟩ := h
            rfl
          · cases fd
            case FunctionDeclaration fname params body =>
              simp only [hf] at h
              split at h
              · simp only [Option.some.injEq, Prod.mk.injEq] at h
                obtain ⟨-, rfl⟩ := h
                rfl
              · split at h
                · exact Option.noConfusion h
                · simp only [Option.some.injEq, Prod.mk.injEq] at h
                  obtain ⟨-, rfl⟩ := h
                  rfl
            all_goals
              simp only [hf, Option.some.injEq, Prod.mk.injEq] at h
            all_goals
              obtain ⟨-, rfl⟩ := h
            all_goals
              rfl
        all_goals
          simp only [call_method, hg, Option.some.injEq, Prod.mk.injEq] at h
        all_goals
          obtain ⟨-, rfl⟩ := h
        all_goals
          rfl
    · intro s fn ags r s1 h
      rcases hl : mapLookup s.functions fn with _ | func
      · simp only [call_function, hl, Option.some.injEq, Prod.mk.injEq] at h
        obtain ⟨-, rfl⟩ := h
        rfl
      · simp only [call_function, hl] at h
        split at h
        · simp only [Option.some.injEq, Prod.mk.injEq] at h
          obtain ⟨-, rfl⟩ := h
          rfl
        · split at h
          · exact Option.noConfusion h
          · simp only [Option.some.injEq, Prod.mk.injEq] at h
            obtain ⟨-, rfl⟩ := h
            rfl

/-- Convenience projection of `eval_preserves_env` for expressions. -/
theorem evaluate_expression_env {fuel s e r s1}
    (h : evaluate_expression fuel s e = some (r, s1)) :
    s1.environment = s.environment :=
  (eval_preserves_env fuel).1 _ _ _ _ h

/-- C4: division and modulo with a zero right operand on same-width
integers evaluate to no value, float division by zero evaluates to no
value, modulo succeeds only on integer operand pairs, and when the
right-hand side of a variable declaration or assignment evaluates to no
value the statement completes without touching the variable environment,
so the target binding is unchanged. -/
theorem C4_div_mod_zero_and_failed_assignment :
    (∀ a : Int,
      perform_arithmetic_operation (.INTEGER32 a) .Divide (.INTEGER32 0)
          = none
      ∧ perform_arithmetic_operation (.INTEGER64 a) .Divide (.INTEGER64 0)
          = none
      ∧ perform_arithmetic_operation (.INTEGER32 a) .Modulo (.INTEGER32 0)
          = none
      ∧ perform_arithmetic_operation (.INTEGER64 a) .Modulo (.INTEGER64 0)
          = none)
  ∧ (∀ q : ℚ,
      perform_arithmetic_operation (.FLOAT32 q) .Divide (.FLOAT32 0) = none
      ∧ perform_arithmetic_operation (.FLOAT64 q) .Divide (.FLOAT64 0) = none)
  ∧ (∀ l r res, perform_arithmetic_operation l .Modulo r = some res →
      (∃ a b, l = .INTEGER32 a ∧ r = .INTEGER32 b)
      ∨ (∃ a b, l = .INTEGER64 a ∧ r = .INTEGER64 b))
  ∧ (∀ fuel s name dt value s1,
      s.returning = false →
      evaluate_expression fuel s value = some (none, s1) →
      execute_statement (fuel + 1) s (.VariableDeclaration name dt value)
          = some (.Continue, s1)
      ∧ execute_statement (fuel + 1) s (.Assignment name value)
          = some (.Continue, s1)
      ∧ s1.environment = s.environment) := by
  refine ⟨fun a => ⟨rfl, rfl, rfl, rfl⟩, fun q => ⟨?_, ?_⟩, ?_, ?_⟩
  · simp [perform_arithmetic_operation]
  · simp [perform_arithmetic_operation]
  · intro l r res h
    cases l <;> cases r <;> simp [perform_arithmetic_operation] at h <;>
      first
      | exact Or.inl ⟨_, _, rfl, rfl⟩
      | exact Or.inr ⟨_, _, rfl, rfl⟩
  · intro fuel s name dt value s1 hret hval
    refine ⟨?_, ?_, evaluate_expression_env hval⟩ <;>
      simp [execute_statement, hret, hval]

/-- Witness for C4's statement-level part: assigning `1 / 0` to `x` in the
fresh runtime state completes and leaves the state unchanged. -/
theorem C4_witness :
    execute_statement 3 RState.new
        (.Assignment "x" (.BinaryOperation (.Value (.INTEGER32 1)) .Divide
          (.Value (.INTEGER32 0)))) = some (.Continue, RState.new) :=
  (C4_div_mod_zero_and_failed_assignment.2.2.2 2 RState.new "x"
      Types.STRING
      (.BinaryOperation (.Value (.INTEGER32 1)) .Divide
        (.Value (.INTEGER32 0)))
      RState.new rfl rfl).2.1

/-- C5: when the operand type tags differ, `==` evaluates to boolean
`false` while `>`, `<`, `>=`, `<=` evaluate to no value; for all operands
`!=` is the boolean negation of `==`, `>=` the negation of `<`, `<=` the
negation of `>` (non-boolean outcomes propagating as no value); float
equality is `|a - b| < EPSILON` at the operand width. -/
theorem C5_comparison_semantics :
    (∀ l r, l.get_type ≠ r.get_type →
      perform_comparison_operation l .Equal r = some (.BOOLEAN false)
      ∧ perform_comparison_operation l .Greater r = none
      ∧ perform_comparison_operation l .Less r = none
      ∧ perform_comparison_operation l .GreaterEqual r = none
      ∧ perform_comparison_operation l .LessEqual r = none)
  ∧ (∀ l r,
      perform_comparison_operation l .NotEqual r =
        negateBoolResult (perform_comparison_operation l .Equal r)
      ∧ perform_comparison_operation l .GreaterEqual r =
        negateBoolResult (perform_comparison_operation l .Less r)
      ∧ perform_comparison_operation l .LessEqual r =
        negateBoolResult (perform_comparison_operation l .Greater r))
  ∧ (∀ a b : ℚ,
      perform_comparison_operation (.FLOAT32 a) .Equal (.FLOAT32 b)
        = some (.BOOLEAN (decide (|a - b| < f32EPSILON)))
      ∧ perform_comparison_operation (.FLOAT64 a) .Equal (.FLOAT64 b)
        = some (.BOOLEAN (decide (|a - b| < f64EPSILON)))) := by
  refine ⟨?_, fun l r => ⟨rfl, rfl, rfl⟩, fun a b => ⟨rfl, rfl⟩⟩
  intro l r hne
  have heq : perform_comparison_operation l .Equal r = some (.BOOLEAN false) := by
    cases l <;> cases r <;> first | rfl | exact absurd rfl hne
  have hgt : perform_comparison_operation l .Greater r = none := by
    cases l <;> cases r <;> first | rfl | exact absurd rfl hne
  have hlt : perform_comparison_operation l .Less r = none := by
    cases l <;> cases r <;> first | rfl | exact absurd rfl hne
  refine ⟨heq, hgt, hlt, ?_, ?_⟩
  · show negateBoolResult (comparisonLessResult l r) = none
    have : comparisonLessResult l r = none := hlt
    rw [this]
    rfl
  · show negateBoolResult (comparisonGreaterResult l r) = none
    have : comparisonGreaterResult l r = none := hgt
    rw [this]
    rfl

/-- Witness for C5 at a concrete mismatched pair. -/
theorem C5_witness :
    perform_comparison_operation (.INTEGER32 1) .Equal (.STRING "a")
        = some (.BOOLEAN false)
    ∧ perform_comparison_operation (.INTEGER32 1) .GreaterEqual (.STRING "a")
        = none :=
  ⟨(C5_comparison_semantics.1 (.INTEGER32 1) (.STRING "a")
      (by simp [DataHolder.get_type])).1,
   (C5_comparison_semantics.1 (.INTEGER32 1) (.STRING "a")
      (by simp [DataHolder.get_type])).2.2.2.1⟩

/-- C6: `and` with a boolean-false left operand yields boolean `false`
without evaluating the right operand (the result does not depend on the
right operand at all), `or` with a boolean-true left operand yields
boolean `true` likewise; in every other case the right operand is
evaluated and the result is no value unless both operands are booleans. -/
theorem C6_logical_short_circuit :
    (∀ fuel s l rgt s1,
      evaluate_expression fuel s l = some (some (.BOOLEAN false), s1) →
      evaluate_expression (fuel + 1) s (.LogicalOperation l .And rgt)
        = some (some (.BOOLEAN false), s1))
  ∧ (∀ fuel s l rgt s1,
      evaluate_expression fuel s l = some (some (.BOOLEAN true), s1) →
      evaluate_expression (fuel + 1) s (.LogicalOperation l .Or rgt)
        = some (some (.BOOLEAN true), s1))
  ∧ (∀ fuel s l rgt lv s1,
      evaluate_expression fuel s l = some (some lv, s1) →
      lv ≠ .BOOLEAN false →
      evaluate_expression (fuel + 1) s (.LogicalOperation l .And rgt)
        = bindEval (evaluate_expression fuel s1 rgt) (fun rv s2 =>
            some (logicalAndResult lv rv, s2)))
  ∧ (∀ fuel s l rgt lv s1,
      evaluate_expression fuel s l = some (some lv, s1) →
      lv ≠ .BOOLEAN true →
      evaluate_expression (fuel + 1) s (.LogicalOperation l .Or rgt)
        = bindEval (evaluate_expression fuel s1 rgt) (fun rv s2 =>
            some (logicalOrResult lv rv, s2)))
  ∧ (∀ lv rv, logicalAndResult lv rv = none ∨ logicalOrResult lv rv = none →
      (∀ a, lv ≠ .BOOLEAN a) ∨ (∀ b, rv ≠ .BOOLEAN b))
  ∧ (∀ a b, logicalAndResult (.BOOLEAN a) (.BOOLEAN b)
        = some (.BOOLEAN (a && b))
      ∧ logicalOrResult (.BOOLEAN a) (.BOOLEAN b)
        = some (.BOOLEAN (a || b))) := by
  refine ⟨?_, ?_, ?_, ?_, ?_, fun a b => ⟨rfl, rfl⟩⟩
  · intro fuel s l rgt s1 hl
    simp [evaluate_expression, hl, bindEval, isBoolFalse]
  · intro fuel s l rgt s1 hl
    simp [evaluate_expression, hl, bindEval, isBoolTrue]
  · intro fuel s l rgt lv s1 hl hlv
    have hfalse : isBoolFalse lv = false := by
      cases lv with
      | BOOLEAN b =>
        cases b
        · exact absurd rfl hlv
        · rfl
      | _ => rfl
    simp [evaluate_expression, hl, bindEval, hfalse]
  · intro fuel s l rgt lv s1 hl hlv
    have htrue : isBoolTrue lv = false := by
      cases lv with
      | BOOLEAN b =>
        cases b
        · rfl
        · exact absurd rfl hlv
      | _ => rfl
    simp [evaluate_expression, hl, bindEval, htrue]
  · intro lv rv h
    cases lv <;> cases rv <;>
      first
      | exact Or.inl (fun a h' => DataHolder.noConfusion h')
      | exact Or.inr (fun b h' => DataHolder.noConfusion h')
      | (exfalso; rcases h with h | h <;>
          exact Option.noConfusion h)

/-- Witness for C6: with a boolean-false left operand, `and` ignores an
unevaluable right operand. -/
theorem C6_witness :
    evaluate_expression 2 RState.new
        (.LogicalOperation (.Value (.BOOLEAN false)) .And (.var "missing"))
      = some (some (.BOOLEAN false), RState.new) :=
  C6_logical_short_circuit.1 1 RState.new (.Value (.BOOLEAN false))
    (.var "missing") RState.new rfl

/-- C1: a call to a registered user-defined function returns with the
caller's variable environment exactly as it was before the call: names
bound or reassigned inside the body live only in the callee's snapshot
environment, which is discarded when the saved caller environment is
restored on return.  The same holds for method calls. -/
theorem C1_call_preserves_caller_env :
    (∀ fuel s name args r s1,
      (mapLookup s.functions name).isSome = true →
      evaluate_expression fuel s (.FunctionCall name args) = some (r, s1) →
      s1.environment = s.environment)
  ∧ (∀ fuel s obj m args r s1,
      evaluate_expression fuel s (.MethodCall obj m args) = some (r, s1) →
      s1.environment = s.environment) :=
  ⟨fun _ _ _ _ _ _ _ h => evaluate_expression_env h,
   fun _ _ _ _ _ _ _ h => evaluate_expression_env h⟩

/-- A caller state for the C1 witness: `x` is bound and a function `f`
that reassigns `x` and declares a new `y` is registered. -/
def c1DemoState : RState :=
  { environment := ⟨[("x", .INTEGER32 1)], []⟩
    functions :=
      [("f", ⟨"f", [],
        [.Assignment "x" (.Value (.INTEGER32 42)),
         .VariableDeclaration "y" .INTEGER32 (.Value (.INTEGER32 9))],
        false⟩)]
    returning := false
    return_value := none
    method_context := none }

/-- Witness for C1: calling `f` returns the caller state unchanged, and
the claim's conclusion follows from `C1_call_preserves_caller_env` at this
concrete call. -/
theorem C1_witness :
    evaluate_expression 10 c1DemoState (.FunctionCall "f" [])
      = some (some (.INTEGER32 0), c1DemoState)
    ∧ c1DemoState.environment = c1DemoState.environment :=
  ⟨rfl, C1_call_preserves_caller_env.1 10 c1DemoState "f" [] _ _ rfl rfl⟩

/-- C2: calling a registered class name constructs an instance whose field
map is exactly the declared attributes at their type-appropriate defaults;
an `__init__` method runs on a copy of the freshly initialised instance
(`instance.clone()` at `runtime.rs` line 467), so the returned instance is
the default one even when `__init__` assigns fields. -/
theorem C2_class_construction_defaults :
    (∀ fuel s name args v s1 cname fields,
      s.environment.get_class name = some (.ClassMeta cname fields) →
      evaluate_expression fuel s (.FunctionCall name args)
          = some (some v, s1) →
      v = .CLASSINSTANCE cname (buildDefaultFields fields))
  ∧ get_default_value .INTEGER32 = .INTEGER32 0
  ∧ get_default_value .INTEGER64 = .INTEGER64 0
  ∧ get_default_value .FLOAT32 = .FLOAT32 0
  ∧ get_default_value .FLOAT64 = .FLOAT64 0
  ∧ get_default_value .BOOLEAN = .BOOLEAN false
  ∧ get_default_value .STRING = .STRING ""
  ∧ get_default_value .LIST = .LIST [] := by
  refine ⟨?_, rfl, rfl, rfl, rfl, rfl, rfl, rfl⟩
  intro fuel s name args v s1 cname fields hg h
  cases fuel with
  | zero => simp [evaluate_expression] at h
  | succ f =>
    have hcls : s.environment.is_class_meta_exists name = true := by
      unfold Environment.is_class_meta_exists
      unfold Environment.get_class at hg
      rw [hg]
      rfl
    simp only [evaluate_expression, hcls, if_true] at h
    cases f with
    | zero => simp [create_class_instance] at h
    | succ g =>
      simp only [create_class_instance, hg] at h
      split at h
      · rcases ha : evalArgs g s args with _ | ⟨_ | vals, s2⟩
        · simp only [ha] at h
          exact Option.noConfusion h
        · simp only [ha, Option.some.injEq, Prod.mk.injEq] at h
          exact absurd h.1 (by simp)
        · simp only [ha] at h
          rcases hm : call_method g s2 name "__init__"
              (DataHolder.CLASSINSTANCE cname (buildDefaultFields fields))
              vals with _ | ⟨rr, s3⟩
          · simp only [hm] at h
            exact Option.noConfusion h
          · simp only [hm, Option.some.injEq, Prod.mk.injEq] at h
            exact h.1.symm
      · simp only [Option.some.injEq, Prod.mk.injEq] at h
        exact h.1.symm

/-- The class used by the C2 witness: one declared `i32` attribute and an
`__init__` that assigns `self.v = 77`. -/
def c2BoxFields : List (String × Statement) :=
  [("v", .ClassAttribute "v" .INTEGER32),
   ("__init__", .FunctionDeclaration "__init__" [⟨"self", .STRING⟩]
      [.MemberAssignment (.var "self") "v" (.Value (.INTEGER32 77))])]

/-- A state with the witness class registered. -/
def c2DemoState : RState :=
  { environment := ⟨[], [("Box", .ClassMeta "Box" c2BoxFields)]⟩
    functions := []
    returning := false
    return_value := none
    method_context := none }

/-- Witness for C2: constructing `Box()` yields the instance with `v`
defaulted to `0`, not the `77` assigned inside `__init__`. -/
theorem C2_witness :
    evaluate_expression 20 c2DemoState (.FunctionCall "Box" [])
      = some (some (.CLASSINSTANCE "Box" [("v", .INTEGER32 0)]), c2DemoState)
    ∧ DataHolder.CLASSINSTANCE "Box" [("v", .INTEGER32 0)]
      = .CLASSINSTANCE "Box" (buildDefaultFields c2BoxFields) :=
  ⟨rfl, C2_class_construction_defaults.1 20 c2DemoState "Box" []
    (.CLASSINSTANCE "Box" [("v", .INTEGER32 0)]) c2DemoState "Box"
    c2BoxFields rfl rfl⟩

/-- C10: a `MemberAssignment` statement leaves every binding in the
variable environment unchanged when the value expression evaluates to no
value, when the object expression is not a bare variable, when the
variable is unbound, or when it holds a non-instance value; only when the
variable holds a class instance and the value evaluates does the statement
update that instance's field and write it back to that one binding. -/
theorem C10_member_assignment_guards :
    (∀ fuel s object member value s1,
      s.returning = false →
      evaluate_expression fuel s value = some (none, s1) →
      execute_statement (fuel + 1) s (.MemberAssignment object member value)
          = some (.Continue, s1)
      ∧ s1.environment = s.environment)
  ∧ (∀ fuel s object member value nv s1,
      s.returning = false →
      (∀ nm, object ≠ .var nm) →
      evaluate_expression fuel s value = some (some nv, s1) →
      execute_statement (fuel + 1) s (.MemberAssignment object member value)
          = some (.Continue, s1)
      ∧ s1.environment = s.environment)
  ∧ (∀ fuel s nm member value nv s1,
      s.returning = false →
      evaluate_expression fuel s value = some (some nv, s1) →
      s1.environment.get_variable nm = none →
      execute_statement (fuel + 1) s
          (.MemberAssignment (.var nm) member value)
          = some (.Continue, s1)
      ∧ s1.environment = s.environment)
  ∧ (∀ fuel s nm member value nv s1 w,
      s.returning = false →
      evaluate_expression fuel s value = some (some nv, s1) →
      s1.environment.get_variable nm = some w →
      (∀ cn flds, w ≠ .CLASSINSTANCE cn flds) →
      execute_statement (fuel + 1) s
          (.MemberAssignment (.var nm) member value)
          = some (.Continue, s1)
      ∧ s1.environment = s.environment)
  ∧ (∀ fuel s nm member value nv s1 cn flds,
      s.returning = false →
      evaluate_expression fuel s value = some (some nv, s1) →
      s1.environment.get_variable nm = some (.CLASSINSTANCE cn flds) →
      execute_statement (fuel + 1) s
          (.MemberAssignment (.var nm) member value)
          = some (.Continue,
            { s1 with environment := s1.environment.set_variable nm (.CLASSINSTANCE cn (mapInsert flds member nv)) })) := by
  refine ⟨?_, ?_, ?_, ?_, ?_⟩
  · intro fuel s object member value s1 hret hval
    refine ⟨?_, evaluate_expression_env hval⟩
    simp [execute_statement, hret, hval]
  · intro fuel s object member value nv s1 hret hobj hval
    refine ⟨?_, evaluate_expression_env hval⟩
    cases object
    case var nm => exact absurd rfl (hobj nm)
    all_goals simp [execute_statement, hret, hval]
  · intro fuel s nm member value nv s1 hret hval hvar
    refine ⟨?_, evaluate_expression_env hval⟩
    simp [execute_statement, hret, hval, hvar]
  · intro fuel s nm member value nv s1 w hret hval hvar hw
    refine ⟨?_, evaluate_expression_env hval⟩
    cases w
    case CLASSINSTANCE cn flds => exact absurd rfl (hw cn flds)
    all_goals simp [execute_statement, hret, hval, hvar]
  · intro fuel s nm member value nv s1 cn flds hret hval hvar
    simp [execute_statement, hret, hval, hvar]

/-- A state binding `b` to a class instance, for the C10 witness. -/
def c10DemoState : RState :=
  { environment := ⟨[("b", .CLASSINSTANCE "Box" [("v", .INTEGER32 0)])], []⟩
    functions := []
    returning := false
    return_value := none
    method_context := none }

/-- Witness for C10's success case: `b.v = 9` rewrites exactly the `b`
binding. -/
theorem C10_witness :
    execute_statement 2 c10DemoState
        (.MemberAssignment (.var "b") "v" (.Value (.INTEGER32 9)))
      = some (.Continue,
          { c10DemoState with environment := c10DemoState.environment.set_variable "b" (.CLASSINSTANCE "Box" (mapInsert [("v", .INTEGER32 0)] "v" (.INTEGER32 9))) }) :=
  C10_member_assignment_guards.2.2.2.2 1 c10DemoState "b" "v"
    (.Value (.INTEGER32 9)) (.INTEGER32 9) c10DemoState "Box"
    [("v", .INTEGER32 0)] rfl rfl rfl

/-- The sequence of loop-variable values produced by the for-loop guard
`(step > 0 && current < end) || (step < 0 && current > end)` with
`current += step` at each iteration (`runtime.rs` lines 167-179). -/
def forLoopValues (cur stop step : Int) : List Int :=
  if (step > 0 ∧ cur < stop) ∨ (step < 0 ∧ cur > stop) then
    cur :: forLoopValues (cur + step) stop step
  else
    []
termination_by (if 0 < step then stop - cur else cur - stop).toNat
decreasing_by
  rename_i h
  rcases h with ⟨h1, h2⟩ | ⟨h1, h2⟩
  · rw [if_pos h1, if_pos h1]
    omega
  · have hn : ¬ (0 : Int) < step := by omega
    rw [if_neg hn, if_neg hn]
    omega

/-- One-step unfolding of `forLoopValues`. -/
theorem forLoopValues_eq (cur stop step : Int) :
    forLoopValues cur stop step =
      if (step > 0 ∧ cur < stop) ∨ (step < 0 ∧ cur > stop) then
        cur :: forLoopValues (cur + step) stop step
      else [] := by
  rw [forLoopValues]

/-- Iterating the loop body over an explicit list of loop-variable values:
for each element, bind the loop variable, run the body, propagate an early
`Return`, and continue with the rest. -/
def runFor (fuel : Nat) (s : RState) (variable_name : String)
    (vals : List Int) (w : IntWidth) (body : List Statement) : ExecRes :=
  match fuel with
  | 0 => none
  | f + 1 =>
    match vals with
    | [] => some (.Continue, s)
    | i :: rest =>
      let env1 := s.environment.set_variable variable_name (mkIntVal w i)
      let s1 : RState := { s with environment := env1 }
      match execStmtList f s1 body with
      | none => none
      | some (.Return v, s2) => some (.Return v, s2)
      | some (_, s2) => runFor f s2 variable_name rest w body

/-- The fuelled source loop visits exactly the `forLoopValues` sequence. -/
theorem execForLoop_eq_runFor :
    ∀ fuel s variable_name cur stop step w body,
      execForLoop fuel s variable_name cur stop step w body =
        runFor fuel s variable_name (forLoopValues cur stop step) w body := by
  intro fuel
  induction fuel with
  | zero =>
    intro s v cur stop step w body
    rfl
  | succ f ih =>
    intro s v cur stop step w body
    rw [forLoopValues_eq]
    by_cases hg : (step > 0 ∧ cur < stop) ∨ (step < 0 ∧ cur > stop)
    · rw [if_pos hg]
      rcases hb : execStmtList f
          { s with
            environment := s.environment.set_variable v (mkIntVal w cur) }
          body with _ | ⟨er, s2⟩
      · simp [execForLoop, runFor, if_pos hg, hb]
      · cases er <;> simp [execForLoop, runFor, if_pos hg, hb, ih]
    · rw [if_neg hg]
      simp [execForLoop, runFor, if_neg hg]

/-- C3: when the three bound expressions of a for-loop evaluate to
integers of one width, executing the loop equals running the body once for
each value in the guard-generated sequence `forLoopValues`; in particular
`./[0, 5, 1]` produces `0,1,2,3,4`, `./[5, 0, -1]` produces `5,4,3,2,1`,
and a step of `0` produces no iterations. -/
theorem C3_for_loop_iteration (fuel : Nat) (s : RState)
    (variable_name : String) (e1 e2 e3 : AstExpressions)
    (body : List Statement) (a b c : Int) (w : IntWidth) (s1 s2 s3 : RState)
    (hret : s.returning = false)
    (h1 : evaluate_expression fuel s e1 = some (some (mkIntVal w a), s1))
    (h2 : evaluate_expression fuel s1 e2 = some (some (mkIntVal w b), s2))
    (h3 : evaluate_expression fuel s2 e3 = some (some (mkIntVal w c), s3)) :
    execute_statement (fuel + 1) s (.ForLoop variable_name e1 e2 e3 body)
      = runFor fuel s3 variable_name (forLoopValues a b c) w body
    ∧ forLoopValues 0 5 1 = [0, 1, 2, 3, 4]
    ∧ forLoopValues 5 0 (-1) = [5, 4, 3, 2, 1]
    ∧ forLoopValues 0 5 0 = [] := by
  refine ⟨?_, ?_, ?_, ?_⟩
  · cases w <;>
      simp [execute_statement, hret, h1, h2, h3, mkIntVal,
        execForLoop_eq_runFor]
  · rw [forLoopValues_eq]
    norm_num
    rw [forLoopValues_eq]
    norm_num
    rw [forLoopValues_eq]
    norm_num
    rw [forLoopValues_eq]
    norm_num
    rw [forLoopValues_eq]
    norm_num
    rw [forLoopValues_eq]
    norm_num
  · rw [forLoopValues_eq]
    norm_num
    rw [forLoopValues_eq]
    norm_num
    rw [forLoopValues_eq]
    norm_num
    rw [forLoopValues_eq]
    norm_num
    rw [forLoopValues_eq]
    norm_num
    rw [forLoopValues_eq]
    norm_num
  · rw [forLoopValues_eq]
    norm_num

/-- Witness for C3 at the concrete loop `./[0, 5, 1]` with an empty
body. -/
theorem C3_witness :
    execute_statement 3 RState.new
        (.ForLoop "i" (.Value (.INTEGER32 0)) (.Value (.INTEGER32 5))
          (.Value (.INTEGER32 1)) [])
      = runFor 2 RState.new "i" (forLoopValues 0 5 1) .w32 []
    ∧ forLoopValues 0 5 1 = [0, 1, 2, 3, 4]
    ∧ forLoopValues 5 0 (-1) = [5, 4, 3, 2, 1]
    ∧ forLoopValues 0 5 0 = [] :=
  C3_for_loop_iteration 2 RState.new "i" (.Value (.INTEGER32 0))
    (.Value (.INTEGER32 5)) (.Value (.INTEGER32 1)) [] 0 5 1 .w32
    RState.new RState.new RState.new rfl rfl rfl rfl

/-- `Tokens` (`tokenizer.rs`). -/
inductive Tokens where
  | LET
  | IDENTIFIER (s : String)
  | COLON
  | TYPE (t : Types)
  | VALUE (v : DataHolder)
  | PLUS
  | MINUS
  | STAR
  | SLASH
  | LPAREN
  | RPAREN
  | EQUALS
  | COMMA
  | DOUBLEQUOTES
  | SINGLEQUOTES
  | LSQRBRAC
  | RSQRBRAC
  | IF
  | ELSE
  | LBRACE
  | RBRACE
  | EQUALS_EQUALS
  | GREATER
  | LESS
  | OR
  | AND
  | NOT
  | NOT_EQUALS
  | LESS_EQUALS
  | GREATER_EQUALS
  | MODULO
  | FOR
  | IN
  | DOT
  | FN
  | RETURN
  | WHILE
  | CLASS
  | PUBLIC
  | SELF
deriving Repr

/-- `Tokenizer::try_parse_number` (`tokenizer.rs` lines 471-491),
parametric in the `f32`/`f64` string parsers (`str::parse::<f32>` /
`str::parse::<f64>`), whose value semantics are floating point and are
kept abstract; parsed float payloads are rationals.  The integer attempts
are the exact `str::parse::<i32>` / `str::parse::<i64>` semantics. -/
def tryParseNumberWith (pf32 pf64 : String → Option ℚ) (word : String) :
    Option DataHolder :=
  match parseI32 word with
  | some value => some (.INTEGER32 value)
  | none =>
    match parseI64 word with
    | some value => some (.INTEGER64 value)
    | none =>
      if word.data.contains '.' then
        match pf32 word with
        | some value => some (.FLOAT32 value)
        | none =>
          match pf64 word with
          | some value => some (.FLOAT64 value)
          | none => none
      else
        none

/-- `Tokenizer::classify_token` (`tokenizer.rs` lines 438-469): the
keyword table in source order, then the numeric attempt, then an
identifier token. -/
def classifyTokenWith (pf32 pf64 : String → Option ℚ) (word : String) :
    Tokens :=
  if word = "let" then .LET
  else if word = "for" then .FOR
  else if word = "in" then .IN
  else if word = "i32" then .TYPE .INTEGER32
  else if word = "i64" then .TYPE .INTEGER64
  else if word = "f32" then .TYPE .FLOAT32
  else if word = "f64" then .TYPE .FLOAT64
  else if word = "bool" then .TYPE .BOOLEAN
  else if word = "string" then .TYPE .STRING
  else if word = "true" then .VALUE (.BOOLEAN true)
  else if word = "false" then .VALUE (.BOOLEAN false)
  else if word = "if" then .IF
  else if word = "else" then .ELSE
  else if word = "or" then .OR
  else if word = "and" then .AND
  else if word = "not" then .NOT
  else if word = "fn" then .FN
  else if word = "return" then .RETURN
  else if word = "while" then .WHILE
  else if word = "class" then .CLASS
  else if word = "public" then .PUBLIC
  else if word = "self" then .SELF
  else
    match tryParseNumberWith pf32 pf64 word with
    | some value => .VALUE value
    | none => .IDENTIFIER word

/-- The spellings handled by the keyword table of `classify_token`. -/
def keywordStrings : List String :=
  ["let", "for", "in", "i32", "i64", "f32", "f64", "bool", "string",
   "true", "false", "if", "else", "or", "and", "not", "fn", "return",
   "while", "class", "public", "self"]

/-- C8: a non-keyword word is classified by attempting, in order, a
32-bit integer parse, a 64-bit integer parse, and (only when the word
contains a dot) a 32-bit then a 64-bit float parse, the first success
fixing value and type; when every attempt fails the word becomes an
identifier token. -/
theorem C8_numeric_classification (pf32 pf64 : String → Option ℚ)
    (w : String) (hkw : w ∉ keywordStrings) :
    classifyTokenWith pf32 pf64 w =
      (match tryParseNumberWith pf32 pf64 w with
       | some v => .VALUE v
       | none => .IDENTIFIER w)
    ∧ (∀ n, parseI32 w = some n →
        tryParseNumberWith pf32 pf64 w = some (.INTEGER32 n))
    ∧ (∀ n, parseI32 w = none → parseI64 w = some n →
        tryParseNumberWith pf32 pf64 w = some (.INTEGER64 n))
    ∧ (parseI32 w = none → parseI64 w = none → w.data.contains '.' = false →
        tryParseNumberWith pf32 pf64 w = none)
    ∧ (∀ q, parseI32 w = none → parseI64 w = none → w.data.contains '.' = true →
        pf32 w = some q →
        tryParseNumberWith pf32 pf64 w = some (.FLOAT32 q))
    ∧ (∀ q, parseI32 w = none → parseI64 w = none → w.data.contains '.' = true →
        pf32 w = none → pf64 w = some q →
        tryParseNumberWith pf32 pf64 w = some (.FLOAT64 q))
    ∧ (parseI32 w = none → parseI64 w = none → w.data.contains '.' = true →
        pf32 w = none → pf64 w = none →
        tryParseNumberWith pf32 pf64 w = none) := by
  refine ⟨?_, ?_, ?_, ?_, ?_, ?_, ?_⟩
  · simp only [keywordStrings, List.mem_cons, List.not_mem_nil, or_false,
      not_or] at hkw
    obtain ⟨k1, k2, k3, k4, k5, k6, k7, k8, k9, k10, k11, k12, k13, k14,
      k15, k16, k17, k18, k19, k20, k21, k22⟩ := hkw
    simp only [classifyTokenWith, k1, k2, k3, k4, k5, k6, k7, k8, k9, k10,
      k11, k12, k13, k14, k15, k16, k17, k18, k19, k20, k21, k22, if_false,
      ite_false]
  · intro n h32
    simp [tryParseNumberWith, h32]
  · intro n h32 h64
    simp [tryParseNumberWith, h32, h64]
  · intro h32 h64 hdot
    simp at hdot
    simp [tryParseNumberWith, h32, h64, hdot]
  · intro q h32 h64 hdot hf
    simp at hdot
    simp [tryParseNumberWith, h32, h64, hdot, hf]
  · intro q h32 h64 hdot hf32 hf64
    simp at hdot
    simp [tryParseNumberWith, h32, h64, hdot, hf32, hf64]
  · intro h32 h64 hdot hf32 hf64
    simp at hdot
    simp [tryParseNumberWith, h32, h64, hdot, hf32, hf64]

/-- Witness for C8 at the non-keyword word `"x5"`, which fails every
numeric attempt and becomes an identifier. -/
theorem C8_witness :
    classifyTokenWith (fun _ => none) (fun _ => none) "x5"
      = (match tryParseNumberWith (fun _ => none) (fun _ => none) "x5" with
         | some v => Tokens.VALUE v
         | none => Tokens.IDENTIFIER "x5")
    ∧ tryParseNumberWith (fun _ => none) (fun _ => none) "x5" = none :=
  have h := C8_numeric_classification (fun _ => none) (fun _ => none) "x5"
    (by decide)
  ⟨h.1, h.2.2.2.1 rfl rfl rfl⟩

/-- Parse results (`ASTParser`, `AstTree.rs`): the outer `Option` is fuel
exhaustion, the inner `Option α` is the Rust `Option` returned by the
parsing function (`none` = parse failure), and the token list is the
cursor's remaining-token view (`&mut TokenCursor` threading; a failing
function leaves the cursor wherever it stopped, exactly as in Rust). -/
abbrev PRes (α : Type) := Option (Option α × List Tokens)

/-- The Rust `?` operator on parse results: a parse failure
short-circuits (carrying its cursor), fuel exhaustion propagates. -/
def pbind {α β : Type} (x : PRes α) (k : α → List Tokens → PRes β) :
    PRes β :=
  match x with
  | none => none
  | some (none, ts1) => some (none, ts1)
  | some (some v, ts1) => k v ts1

mutual

/-- `ASTParser::parse_expression` (`AstTree.rs` lines 948-950). -/
def parse_expression (fuel : Nat) (ts : List Tokens) : PRes AstExpressions :=
  match fuel with
  | 0 => none
  | f + 1 => parse_logical_or f ts

/-- `ASTParser::parse_logical_or` (`AstTree.rs` lines 952-965). -/
def parse_logical_or (fuel : Nat) (ts : List Tokens) : PRes AstExpressions :=
  match fuel with
  | 0 => none
  | f + 1 =>
    pbind (parse_logical_and f ts) fun left ts1 =>
      parse_logical_or_loop f left ts1

/-- The `while cursor.match_token(&Tokens::OR)` fold of
`parse_logical_or`. -/
def parse_logical_or_loop (fuel : Nat) (left : AstExpressions)
    (ts : List Tokens) : PRes AstExpressions :=
  match fuel with
  | 0 => none
  | f + 1 =>
    match ts with
    | .OR :: rest =>
      pbind (parse_logical_and f rest) fun right ts1 =>
        parse_logical_or_loop f (.LogicalOperation left .Or right) ts1
    | _ => some (some left, ts)

/-- `ASTParser::parse_logical_and` (`AstTree.rs` lines 967-980). -/
def parse_logical_and (fuel : Nat) (ts : List Tokens) : PRes AstExpressions :=
  match fuel with
  | 0 => none
  | f + 1 =>
    pbind (parse_equality f ts) fun left ts1 =>
      parse_logical_and_loop f left ts1

/-- The `while cursor.match_token(&Tokens::AND)` fold of
`parse_logical_and`. -/
def parse_logical_and_loop (fuel : Nat) (left : AstExpressions)
    (ts : List Tokens) : PRes AstExpressions :=
  match fuel with
  | 0 => none
  | f + 1 =>
    match ts with
    | .AND :: rest =>
      pbind (parse_equality f rest) fun right ts1 =>
        parse_logical_and_loop f (.LogicalOperation left .And right) ts1
    | _ => some (some left, ts)

/-- `ASTParser::parse_equality` (`AstTree.rs` lines 982-995). -/
def parse_equality (fuel : Nat) (ts : List Tokens) : PRes AstExpressions :=
  match fuel with
  | 0 => none
  | f + 1 =>
    pbind (parse_comparison f ts) fun left ts1 =>
      parse_equality_loop f left ts1

/-- The `while let Some(op) = match_comparison_operator` fold of
`parse_equality` (`AstTree.rs` lines 985-992, operator table at lines
1162-1190). -/
def parse_equality_loop (fuel : Nat) (left : AstExpressions)
    (ts : List Tokens) : PRes AstExpressions :=
  match fuel with
  | 0 => none
  | f + 1 =>
    match ts with
    | .EQUALS_EQUALS :: rest =>
      pbind (parse_comparison f rest) fun right ts1 =>
        parse_equality_loop f (.ComparisonOperation left .Equal right) ts1
    | .NOT_EQUALS :: rest =>
      pbind (parse_comparison f rest) fun right ts1 =>
        parse_equality_loop f (.ComparisonOperation left .NotEqual right) ts1
    | .GREATER :: rest =>
      pbind (parse_comparison f rest) fun right ts1 =>
        parse_equality_loop f (.ComparisonOperation left .Greater right) ts1
    | .LESS :: rest =>
      pbind (parse_comparison f rest) fun right ts1 =>
        parse_equality_loop f (.ComparisonOperation left .Less right) ts1
    | .GREATER_EQUALS :: rest =>
      pbind (parse_comparison f rest) fun right ts1 =>
        parse_equality_loop f
          (.ComparisonOperation left .GreaterEqual right) ts1
    | .LESS_EQUALS :: rest =>
      pbind (parse_comparison f rest) fun right ts1 =>
        parse_equality_loop f (.ComparisonOperation left .LessEqual right) ts1
    | _ => some (some left, ts)

/-- `ASTParser::parse_comparison` (`AstTree.rs` lines 997-999), a plain
delegation to `parse_term`. -/
def parse_comparison (fuel : Nat) (ts : List Tokens) : PRes AstExpressions :=
  match fuel with
  | 0 => none
  | f + 1 => parse_term f ts

/-- `ASTParser::parse_term` (`AstTree.rs` lines 1001-1014). -/
def parse_term (fuel : Nat) (ts : List Tokens) : PRes AstExpressions :=
  match fuel with
  | 0 => none
  | f + 1 =>
    pbind (parse_factor f ts) fun left ts1 =>
      parse_term_loop f left ts1

/-- The additive-operator fold of `parse_term` (allowed tokens `PLUS`,
`MINUS`; `AstTree.rs` lines 1004-1011, 1192-1212). -/
def parse_term_loop (fuel : Nat) (left : AstExpressions)
    (ts : List Tokens) : PRes AstExpressions :=
  match fuel with
  | 0 => none
  | f + 1 =>
    match ts with
    | .PLUS :: rest =>
      pbind (parse_factor f rest) fun right ts1 =>
        parse_term_loop f (.BinaryOperation left .Add right) ts1
    | .MINUS :: rest =>
      pbind (parse_factor f rest) fun right ts1 =>
        parse_term_loop f (.BinaryOperation left .Subtract right) ts1
    | _ => some (some left, ts)

/-- `ASTParser::parse_factor` (`AstTree.rs` lines 1016-1029). -/
def parse_factor (fuel : Nat) (ts : List Tokens) : PRes AstExpressions :=
  match fuel with
  | 0 => none
  | f + 1 =>
    pbind (parse_unary f ts) fun left ts1 =>
      parse_factor_loop f left ts1

/-- The multiplicative-operator fold of `parse_factor` (allowed tokens
`STAR`, `SLASH`, `MODULO`). -/
def parse_factor_loop (fuel : Nat) (left : AstExpressions)
    (ts : List Tokens) : PRes AstExpressions :=
  match fuel with
  | 0 => none
  | f + 1 =>
    match ts with
    | .STAR :: rest =>
      pbind (parse_unary f rest) fun right ts1 =>
        parse_factor_loop f (.BinaryOperation left .Multiply right) ts1
    | .SLASH :: rest =>
      pbind (parse_unary f rest) fun right ts1 =>
        parse_factor_loop f (.BinaryOperation left .Divide right) ts1
    | .MODULO :: rest =>
      pbind (parse_unary f rest) fun right ts1 =>
        parse_factor_loop f (.BinaryOperation left .Modulo right) ts1
    | _ => some (some left, ts)

/-- `ASTParser::parse_unary` (`AstTree.rs` lines 1031-1041, unary operator
table at lines 1214-1226). -/
def parse_unary (fuel : Nat) (ts : List Tokens) : PRes AstExpressions :=
  match fuel with
  | 0 => none
  | f + 1 =>
    match ts with
    | .MINUS :: rest =>
      pbind (parse_unary f rest) fun operand ts1 =>
        some (some (.UnaryOperation .Subtract operand), ts1)
    | .PLUS :: rest =>
      pbind (parse_unary f rest) fun operand ts1 =>
        some (some (.UnaryOperation .Add operand), ts1)
    | _ => parse_primary f ts

/-- `ASTParser::parse_primary` (`AstTree.rs` lines 1043-1089). -/
def parse_primary (fuel : Nat) (ts : List Tokens) : PRes AstExpressions :=
  match fuel with
  | 0 => none
  | f + 1 =>
    match ts with
    | .VALUE v :: rest => some (some (.Value v), rest)
    | .IDENTIFIER name :: rest =>
      parse_member_access_or_call f (.var name) rest
    | .SELF :: rest =>
      parse_member_access_or_call f (.var "self") rest
    | .LPAREN :: rest =>
      pbind (parse_expression f rest) fun e ts1 =>
        match ts1 with
        | .RPAREN :: ts2 => some (some (.Grouping e), ts2)
        | _ => some (none, ts1)
    | .LSQRBRAC :: rest =>
      match rest with
      | .RSQRBRAC :: ts2 => some (some (.ListLiteral []), ts2)
      | _ =>
        pbind (parse_expr_list f rest) fun elements ts1 =>
          match ts1 with
          | .RSQRBRAC :: ts2 => some (some (.ListLiteral elements), ts2)
          | _ => some (none, ts1)
    | _ => some (none, ts)

/-- The comma-separated expression loop shared by the list-literal arm of
`parse_primary` (`AstTree.rs` lines 1075-1082) and by
`parse_function_arguments` (lines 1150-1157): both push one parsed
expression and continue on a consumed comma. -/
def parse_expr_list (fuel : Nat) (ts : List Tokens) :
    PRes (List AstExpressions) :=
  match fuel with
  | 0 => none
  | f + 1 =>
    pbind (parse_expression f ts) fun e ts1 =>
      match ts1 with
      | .COMMA :: ts2 =>
        pbind (parse_expr_list f ts2) fun es ts3 =>
          some (some (e :: es), ts3)
      | _ => some (some [e], ts1)

/-- `ASTParser::parse_function_arguments` (`AstTree.rs` lines
1143-1160). -/
def parse_function_arguments (fuel : Nat) (ts : List Tokens) :
    PRes (List AstExpressions) :=
  match fuel with
  | 0 => none
  | f + 1 =>
    match ts with
    | .RPAREN :: _ => some (some [], ts)
    | _ => parse_expr_list f ts

/-- `ASTParser::parse_member_access_or_call` (`AstTree.rs` lines
1091-1141). -/
def parse_member_access_or_call (fuel : Nat) (e : AstExpressions)
    (ts : List Tokens) : PRes AstExpressions :=
  match fuel with
  | 0 => none
  | f + 1 =>
    match ts with
    | .DOT :: rest =>
      match rest with
      | .IDENTIFIER member_name :: rest2 =>
        match rest2 with
        | .LPAREN :: rest3 =>
          pbind (parse_function_arguments f rest3) fun args ts1 =>
            match ts1 with
            | .RPAREN :: ts2 =>
              parse_member_access_or_call f
                (.MethodCall e member_name args) ts2
            | _ => some (none, ts1)
        | _ =>
          parse_member_access_or_call f (.MemberAccess e member_name) rest2
      | _ :: rest2 => some (none, rest2)
      | [] => some (none, [])
    | .LPAREN :: rest =>
      pbind (parse_function_arguments f rest) fun args ts1 =>
        match ts1 with
        | .RPAREN :: ts2 =>
          match e with
          | .var name =>
            parse_member_access_or_call f (.FunctionCall name args) ts2
          | _ => some (none, ts2)
        | _ => some (none, ts1)
    | _ => some (some e, ts)

end

/-- C7: the expression grammar builds trees by the precedence ladder:
`a + b * c` parses as `a + (b * c)`, `a * b + c` as `(a * b) + c`,
`a == b and c == d` as `(a == b) and (c == d)`, and the binary levels are
left-associative (`a + b + c` as `(a + b) + c`, `a * b * c` as
`(a * b) * c`, `a and b and c` as `(a and b) and c`). -/
theorem C7_precedence_ladder (a b c d : String) :
    parse_expression 50
        [.IDENTIFIER a, .PLUS, .IDENTIFIER b, .STAR, .IDENTIFIER c]
      = some (some (.BinaryOperation (.var a) .Add
          (.BinaryOperation (.var b) .Multiply (.var c))), [])
    ∧ parse_expression 50
        [.IDENTIFIER a, .STAR, .IDENTIFIER b, .PLUS, .IDENTIFIER c]
      = some (some (.BinaryOperation
          (.BinaryOperation (.var a) .Multiply (.var b)) .Add (.var c)), [])
    ∧ parse_expression 50
        [.IDENTIFIER a, .EQUALS_EQUALS, .IDENTIFIER b, .AND,
         .IDENTIFIER c, .EQUALS_EQUALS, .IDENTIFIER d]
      = some (some (.LogicalOperation
          (.ComparisonOperation (.var a) .Equal (.var b)) .And
          (.ComparisonOperation (.var c) .Equal (.var d))), [])
    ∧ parse_expression 50
        [.IDENTIFIER a, .PLUS, .IDENTIFIER b, .PLUS, .IDENTIFIER c]
      = some (some (.BinaryOperation
          (.BinaryOperation (.var a) .Add (.var b)) .Add (.var c)), [])
    ∧ parse_expression 50
        [.IDENTIFIER a, .STAR, .IDENTIFIER b, .STAR, .IDENTIFIER c]
      = some (some (.BinaryOperation
          (.BinaryOperation (.var a) .Multiply (.var b)) .Multiply
          (.var c)), [])
    ∧ parse_expression 50
        [.IDENTIFIER a, .AND, .IDENTIFIER b, .AND, .IDENTIFIER c]
      = some (some (.LogicalOperation
          (.LogicalOperation (.var a) .And (.var b)) .And (.var c)), []) :=
  ⟨rfl, rfl, rfl, rfl, rfl, rfl⟩

mutual

/-- `ASTParser::parse_function_parameters` (`AstTree.rs` lines 579-623):
empty list when the current token is `RPAREN`, else the parameter loop. -/
def parse_function_parameters (fuel : Nat) (ts : List Tokens) :
    PRes (List FunctionParameter) :=
  match fuel with
  | 0 => none
  | f + 1 =>
    match ts with
    | .RPAREN :: _ => some (some [], ts)
    | _ => parse_params_loop f ts

/-- One iteration of the parameter loop: consume the parameter name
(`IDENTIFIER` or `SELF`). -/
def parse_params_loop (fuel : Nat) (ts : List Tokens) :
    PRes (List FunctionParameter) :=
  match fuel with
  | 0 => none
  | f + 1 =>
    match ts with
    | .IDENTIFIER n :: ts1 => parse_param_after_name f n ts1
    | .SELF :: ts1 => parse_param_after_name f "self" ts1
    | _ :: ts1 => some (none, ts1)
    | [] => some (none, [])

/-- After the name: `self` gets the placeholder `string` type, any other
name requires `: TYPE`. -/
def parse_param_after_name (fuel : Nat) (n : String) (ts : List Tokens) :
    PRes (List FunctionParameter) :=
  match fuel with
  | 0 => none
  | f + 1 =>
    if n = "self" then
      parse_params_comma f ⟨n, .STRING⟩ ts
    else
      match ts with
      | .COLON :: ts1 =>
        match ts1 with
        | .TYPE t :: ts2 => parse_params_comma f ⟨n, t⟩ ts2
        | _ :: ts2 => some (none, ts2)
        | [] => some (none, [])
      | _ => some (none, ts)

/-- The `if cursor.match_token(&Tokens::COMMA) continue else break` tail
of the parameter loop. -/
def parse_params_comma (fuel : Nat) (param : FunctionParameter)
    (ts : List Tokens) : PRes (List FunctionParameter) :=
  match fuel with
  | 0 => none
  | f + 1 =>
    match ts with
    | .COMMA :: ts1 =>
      pbind (parse_params_loop f ts1) fun params ts2 =>
        some (some (param :: params), ts2)
    | _ => some (some [param], ts)

end

mutual

/-- `ASTParser::parse_statement` (`AstTree.rs` lines 537-550): dispatch on
the leading token; anything unrecognised fails without consuming. -/
def parse_statement (fuel : Nat) (ts : List Tokens) : PRes Statement :=
  match fuel with
  | 0 => none
  | f + 1 =>
    match ts with
    | .LET :: _ => parse_variable_declaration f ts
    | .IF :: _ => parse_conditional_statement f ts
    | .FOR :: _ => parse_for_loop f ts
    | .FN :: _ => parse_function_declaration f ts
    | .RETURN :: _ => parse_return_statement f ts
    | .IDENTIFIER _ :: _ => parse_assignment_or_expression f ts
    | .LBRACE :: _ => parse_block_statement f ts
    | .WHILE :: _ => parse_while_loop f ts
    | .CLASS :: _ => parse_class_declaration f ts
    | _ => some (none, ts)

/-- `ASTParser::parse_variable_declaration` (`AstTree.rs` lines
759-788). -/
def parse_variable_declaration (fuel : Nat) (ts : List Tokens) :
    PRes Statement :=
  match fuel with
  | 0 => none
  | f + 1 =>
    match ts with
    | .LET :: ts1 =>
      match ts1 with
      | .IDENTIFIER n :: ts2 =>
        match ts2 with
        | .COLON :: ts3 =>
          match ts3 with
          | .TYPE t :: ts4 => parse_var_decl_rest f n (some t) ts4
          | _ :: ts4 => some (none, ts4)
          | [] => some (none, [])
        | _ => parse_var_decl_rest f n none ts2
      | _ :: ts2 => some (none, ts2)
      | [] => some (none, [])
    | _ => some (none, ts)

/-- The `= expr` tail of a variable declaration; a missing annotation
defaults to `string` (`AstTree.rs` lines 775-787). -/
def parse_var_decl_rest (fuel : Nat) (n : String) (dt : Option Types)
    (ts : List Tokens) : PRes Statement :=
  match fuel with
  | 0 => none
  | f + 1 =>
    match ts with
    | .EQUALS :: ts1 =>
      pbind (parse_expression f ts1) fun value_expr ts2 =>
        some (some (.VariableDeclaration n (dt.getD .STRING) value_expr), ts2)
    | _ => some (none, ts)

/-- `ASTParser::parse_conditional_statement` (`AstTree.rs` lines
790-817). -/
def parse_conditional_statement (fuel : Nat) (ts : List Tokens) :
    PRes Statement :=
  match fuel with
  | 0 => none
  | f + 1 =>
    match ts with
    | .IF :: ts1 =>
      match ts1 with
      | .LPAREN :: ts2 =>
        pbind (parse_expression f ts2) fun condition ts3 =>
          match ts3 with
          | .RPAREN :: ts4 =>
            match ts4 with
            | .LBRACE :: ts5 =>
              match parse_block_body f ts5 with
              | none => none
              | some (then_branch, ts6) =>
                match ts6 with
                | .RBRACE :: ts7 =>
                  match ts7 with
                  | .ELSE :: ts8 =>
                    match ts8 with
                    | .LBRACE :: ts9 =>
                      match parse_block_body f ts9 with
                      | none => none
                      | some (else_statements, ts10) =>
                        match ts10 with
                        | .RBRACE :: ts11 =>
                          some (some (.Conditional condition then_branch
                            (some else_statements)), ts11)
                        | _ => some (none, ts10)
                    | _ => some (none, ts8)
                  | _ =>
                    some (some (.Conditional condition then_branch none), ts7)
                | _ => some (none, ts6)
            | _ => some (none, ts4)
          | _ => some (none, ts3)
      | _ => some (none, ts1)
    | _ => some (none, ts)

/-- `ASTParser::parse_for_loop` (`AstTree.rs` lines 819-854): the literal
`for NAME in . / [ start , end , step ] { body }` shape. -/
def parse_for_loop (fuel : Nat) (ts : List Tokens) : PRes Statement :=
  match fuel with
  | 0 => none
  | f + 1 =>
    match ts with
    | .FOR :: ts1 =>
      match ts1 with
      | .IDENTIFIER n :: ts2 =>
        match ts2 with
        | .IN :: ts3 =>
          match ts3 with
          | .DOT :: ts4 =>
            match ts4 with
            | .SLASH :: ts5 =>
              match ts5 with
              | .LSQRBRAC :: ts6 =>
                pbind (parse_expression f ts6) fun start ts7 =>
                  match ts7 with
                  | .COMMA :: ts8 =>
                    pbind (parse_expression f ts8) fun stop ts9 =>
                      match ts9 with
                      | .COMMA :: ts10 =>
                        pbind (parse_expression f ts10) fun step ts11 =>
                          match ts11 with
                          | .RSQRBRAC :: ts12 =>
                            match ts12 with
                            | .LBRACE :: ts13 =>
                              match parse_block_body f ts13 with
                              | none => none
                              | some (body, ts14) =>
                                match ts14 with
                                | .RBRACE :: ts15 =>
                                  some (some (.ForLoop n start stop step
                                    body), ts15)
                                | _ => some (none, ts14)
                            | _ => some (none, ts12)
                          | _ => some (none, ts11)
                      | _ => some (none, ts9)
                  | _ => some (none, ts7)
              | _ => some (none, ts5)
            | _ => some (none, ts4)
          | _ => some (none, ts3)
        | _ => some (none, ts2)
      | _ :: ts2 => some (none, ts2)
      | [] => some (none, [])
    | _ => some (none, ts)

/-- `ASTParser::parse_while_loop` (`AstTree.rs` lines 856-873). -/
def parse_while_loop (fuel : Nat) (ts : List Tokens) : PRes Statement :=
  match fuel with
  | 0 => none
  | f + 1 =>
    match ts with
    | .WHILE :: ts1 =>
      match ts1 with
      | .LPAREN :: ts2 =>
        pbind (parse_expression f ts2) fun condition ts3 =>
          match ts3 with
          | .RPAREN :: ts4 =>
            match ts4 with
            | .LBRACE :: ts5 =>
              match parse_block_body f ts5 with
              | none => none
              | some (body, ts6) =>
                match ts6 with
                | .RBRACE :: ts7 =>
                  some (some (.WhileLoop condition body), ts7)
                | _ => some (none, ts6)
            | _ => some (none, ts4)
          | _ => some (none, ts3)
      | _ => some (none, ts1)
    | _ => some (none, ts)

/-- `ASTParser::parse_function_declaration` (`AstTree.rs` lines
552-577). -/
def parse_function_declaration (fuel : Nat) (ts : List Tokens) :
    PRes Statement :=
  match fuel with
  | 0 => none
  | f + 1 =>
    match ts with
    | .FN :: ts1 =>
      match ts1 with
      | .IDENTIFIER n :: ts2 =>
        match ts2 with
        | .LPAREN :: ts3 =>
          pbind (parse_function_parameters f ts3) fun params ts4 =>
            match ts4 with
            | .RPAREN :: ts5 =>
              match ts5 with
              | .LBRACE :: ts6 =>
                match parse_block_body f ts6 with
                | none => none
                | some (body, ts7) =>
                  match ts7 with
                  | .RBRACE :: ts8 =>
                    some (some (.FunctionDeclaration n params body), ts8)
                  | _ => some (none, ts7)
              | _ => some (none, ts5)
            | _ => some (none, ts4)
        | _ => some (none, ts2)
      | _ :: ts2 => some (none, ts2)
      | [] => some (none, [])
    | _ => some (none, ts)

/-- `ASTParser::parse_return_statement` (`AstTree.rs` lines 625-638): the
value is absent when the next token is `RBRACE`, `LET`, `IF`, `FOR` or
end-of-input. -/
def parse_return_statement (fuel : Nat) (ts : List Tokens) : PRes Statement :=
  match fuel with
  | 0 => none
  | f + 1 =>
    match ts with
    | .RETURN :: ts1 =>
      match ts1 with
      | .RBRACE :: _ => some (some (.Return none), ts1)
      | .LET :: _ => some (some (.Return none), ts1)
      | .IF :: _ => some (some (.Return none), ts1)
      | .FOR :: _ => some (some (.Return none), ts1)
      | [] => some (some (.Return none), ts1)
      | _ =>
        pbind (parse_expression f ts1) fun v ts2 =>
          some (some (.Return (some v)), ts2)
    | _ => some (none, ts)

/-- `ASTParser::parse_class_declaration` (`AstTree.rs` lines 640-757):
`class NAME { public { attrs } (public { methods })? }`. -/
def parse_class_declaration (fuel : Nat) (ts : List Tokens) :
    PRes Statement :=
  match fuel with
  | 0 => none
  | f + 1 =>
    match ts with
    | .CLASS :: ts1 =>
      match ts1 with
      | .IDENTIFIER class_name :: ts2 =>
        match ts2 with
        | .LBRACE :: ts3 =>
          match ts3 with
          | .PUBLIC :: ts4 =>
            match ts4 with
            | .LBRACE :: ts5 =>
              pbind (parse_class_attrs f [] ts5) fun fields ts6 =>
                match ts6 with
                | .RBRACE :: ts7 =>
                  match ts7 with
                  | .PUBLIC :: ts8 =>
                    match ts8 with
                    | .LBRACE :: ts9 =>
                      pbind (parse_class_methods f fields ts9)
                        fun fields2 ts10 =>
                          match ts10 with
                          | .RBRACE :: ts11 =>
                            match ts11 with
                            | .RBRACE :: ts12 =>
                              some (some (.ClassMeta class_name fields2),
                                ts12)
                            | _ => some (none, ts11)
                          | _ => some (none, ts10)
                    | _ => some (none, ts8)
                  | _ =>
                    match ts7 with
                    | .RBRACE :: ts8 =>
                      some (some (.ClassMeta class_name fields), ts8)
                    | _ => some (none, ts7)
                | _ => some (none, ts6)
            | _ => some (none, ts4)
          | _ => some (none, ts3)
        | _ => some (none, ts2)
      | _ :: ts2 => some (none, ts2)
      | [] => some (none, [])
    | _ => some (none, ts)

/-- The attribute loop of `parse_class_declaration` (`AstTree.rs` lines
665-684): `field : TYPE` entries collected until `RBRACE` or
end-of-input; collisions overwrite. -/
def parse_class_attrs (fuel : Nat) (fields : List (String × Statement))
    (ts : List Tokens) : PRes (List (String × Statement)) :=
  match fuel with
  | 0 => none
  | f + 1 =>
    match ts with
    | [] => some (some fields, ts)
    | .RBRACE :: _ => some (some fields, ts)
    | .IDENTIFIER field_name :: ts1 =>
      match ts1 with
      | .COLON :: ts2 =>
        match ts2 with
        | .TYPE t :: ts3 =>
          parse_class_attrs f
            (mapInsert fields field_name (.ClassAttribute field_name t)) ts3
        | _ :: ts3 => some (none, ts3)
        | [] => some (none, [])
      | _ => some (none, ts1)
    | _ :: ts1 => some (none, ts1)

/-- The method loop of `parse_class_declaration` (`AstTree.rs` lines
699-742): `fn NAME ( params ) { body }` entries collected until `RBRACE`
or end-of-input. -/
def parse_class_methods (fuel : Nat) (fields : List (String × Statement))
    (ts : List Tokens) : PRes (List (String × Statement)) :=
  match fuel with
  | 0 => none
  | f + 1 =>
    match ts with
    | [] => some (some fields, ts)
    | .RBRACE :: _ => some (some fields, ts)
    | .FN :: ts1 =>
      match ts1 with
      | .IDENTIFIER method_name :: ts2 =>
        match ts2 with
        | .LPAREN :: ts3 =>
          pbind (parse_function_parameters f ts3) fun params ts4 =>
            match ts4 with
            | .RPAREN :: ts5 =>
              match ts5 with
              | .LBRACE :: ts6 =>
                match parse_block_body f ts6 with
                | none => none
                | some (body, ts7) =>
                  match ts7 with
                  | .RBRACE :: ts8 =>
                    parse_class_methods f
                      (mapInsert fields method_name
                        (.FunctionDeclaration method_name params body)) ts8
                  | _ => some (none, ts7)
              | _ => some (none, ts5)
            | _ => some (none, ts4)
        | _ => some (none, ts2)
      | _ :: ts2 => some (none, ts2)
      | [] => some (none, [])
    | _ :: _ => some (none, ts)

/-- `ASTParser::parse_assignment_or_expression` (`AstTree.rs` lines
875-924): parse a full expression; on `=` build an assignment or member
assignment, otherwise an expression statement; when the expression fails,
reset to the saved position, consume the identifier and retry. -/
def parse_assignment_or_expression (fuel : Nat) (ts : List Tokens) :
    PRes Statement :=
  match fuel with
  | 0 => none
  | f + 1 =>
    match parse_expression f ts with
    | none => none
    | some (some e, ts1) =>
      match ts1 with
      | .EQUALS :: r =>
        pbind (parse_expression f r) fun v ts2 =>
          match e with
          | .MemberAccess obj mem =>
            some (some (.MemberAssignment obj mem v), ts2)
          | .var nm => some (some (.Assignment nm v), ts2)
          | _ => some (none, ts2)
      | _ => some (some (.ExpressionStatement e), ts1)
    | some (none, _) =>
      match ts with
      | .IDENTIFIER n :: r =>
        match r with
        | .EQUALS :: r2 =>
          pbind (parse_expression f r2) fun v ts2 =>
            some (some (.Assignment n v), ts2)
        | _ =>
          pbind (parse_expression f ts) fun e ts2 =>
            some (some (.ExpressionStatement e), ts2)
      | _ :: r => some (none, r)
      | [] => some (none, [])

/-- `ASTParser::parse_block_statement` (`AstTree.rs` lines 926-931). -/
def parse_block_statement (fuel : Nat) (ts : List Tokens) : PRes Statement :=
  match fuel with
  | 0 => none
  | f + 1 =>
    match ts with
    | .LBRACE :: ts1 =>
      match parse_block_body f ts1 with
      | none => none
      | some (statements, ts2) =>
        match ts2 with
        | .RBRACE :: ts3 => some (some (.Block statements), ts3)
        | _ => some (none, ts2)
    | _ => some (none, ts)

/-- `ASTParser::parse_block_body` (`AstTree.rs` lines 933-945): collect
statements until `RBRACE` or end-of-input, skipping one token after each
failed `parse_statement`.  The Rust function always returns `Some`. -/
def parse_block_body (fuel : Nat) (ts : List Tokens) :
    Option (List Statement × List Tokens) :=
  match fuel with
  | 0 => none
  | f + 1 =>
    match ts with
    | [] => some ([], [])
    | .RBRACE :: _ => some ([], ts)
    | _ =>
      match parse_statement f ts with
      | none => none
      | some (some stmt, ts1) =>
        match parse_block_body f ts1 with
        | none => none
        | some (stmts, ts2) => some (stmt :: stmts, ts2)
      | some (none, ts1) => parse_block_body f (ts1.drop 1)

end

/-- `ASTParser::parse` (`AstTree.rs` lines 522-535): the top-level loop,
skipping one token after each failed `parse_statement`. -/
def parse_program (fuel : Nat) (ts : List Tokens) :
    Option (List Statement) :=
  match fuel with
  | 0 => none
  | f + 1 =>
    match ts with
    | [] => some []
    | _ =>
      match parse_statement f ts with
      | none => none
      | some (some stmt, ts1) =>
        match parse_program f ts1 with
        | none => none
        | some stmts => some (stmt :: stmts)
      | some (none, ts1) => parse_program f (ts1.drop 1)

/-- Length bound for `pbind` outcomes: every outcome of the bound parser
is bounded by `n` and the continuation only shrinks the remainder. -/
theorem pbind_len {α β : Type} {x : PRes α} {k : α → List Tokens → PRes β}
    {n : Nat}
    (hx : ∀ r1 ts1, x = some (r1, ts1) → ts1.length ≤ n)
    (hk : ∀ v ts1, x = some (some v, ts1) →
      ∀ r2 ts2, k v ts1 = some (r2, ts2) → ts2.length ≤ n) :
    ∀ r ts', pbind x k = some (r, ts') → ts'.length ≤ n := by
  intro r ts' h
  rcases x with _ | ⟨_ | v, ts1⟩
  · simp [pbind] at h
  · simp only [pbind, Option.some.injEq, Prod.mk.injEq] at h
    obtain ⟨-, rfl⟩ := h
    exact hx _ _ rfl
  · exact hk v ts1 rfl r ts' (by simpa [pbind] using h)

/-- Strict length bound for successful `pbind` outcomes: the bound parser
strictly consumes on success and the continuation does not grow the
remainder. -/
theorem pbind_success_lt {α β : Type} {x : PRes α}
    {k : α → List Tokens → PRes β} {n : Nat}
    (hx : ∀ v ts1, x = some (some v, ts1) → ts1.length < n)
    (hk : ∀ v ts1, x = some (some v, ts1) →
      ∀ e2 ts2, k v ts1 = some (some e2, ts2) → ts2.length ≤ ts1.length) :
    ∀ e ts', pbind x k = some (some e, ts') → ts'.length < n := by
  intro e ts' h
  rcases x with _ | ⟨_ | v, ts1⟩
  · simp [pbind] at h
  · simp only [pbind, Option.some.injEq, Prod.mk.injEq] at h
    exact absurd h.1 (by simp)
  · exact lt_of_le_of_lt (hk v ts1 rfl e ts' (by simpa [pbind] using h))
      (hx v ts1 rfl)

/-- `pbind` cannot exhaust fuel when neither side does. -/
theorem pbind_ne_none {α β : Type} {x : PRes α}
    {k : α → List Tokens → PRes β}
    (hx : x ≠ none)
    (hk : ∀ v ts1, x = some (some v, ts1) → k v ts1 ≠ none) :
    pbind x k ≠ none := by
  rcases x with _ | ⟨_ | v, ts1⟩
  · exact absurd rfl hx
  · simp [pbind]
  · simpa [pbind] using hk v ts1 rfl

/-- A parsing function never grows the remaining-token list. -/
def PLen {α : Type} (p : Nat → List Tokens → PRes α) (f : Nat) : Prop :=
  ∀ ts r ts', p f ts = some (r, ts') → ts'.length ≤ ts.length

/-- A parsing function never grows the remainder, and strictly consumes
at least one token on success. -/
def PLenS {α : Type} (p : Nat → List Tokens → PRes α) (f : Nat) : Prop :=
  ∀ ts r ts', p f ts = some (r, ts') →
    ts'.length ≤ ts.length ∧ (r.isSome = true → ts'.length < ts.length)

/-- Like `PLen` for parsing functions carrying an accumulator. -/
def PLenAcc {α β : Type} (p : Nat → β → List Tokens → PRes α) (f : Nat) :
    Prop :=
  ∀ x ts r ts', p f x ts = some (r, ts') → ts'.length ≤ ts.length

/-- One precedence level (`sub` then fold loop `lp`) never grows the
remainder and strictly consumes on success. -/
theorem level_len {sub : Nat → List Tokens → PRes AstExpressions}
    {lp : Nat → AstExpressions → List Tokens → PRes AstExpressions}
    {f : Nat} (hsub : PLenS sub f) (hlp : PLenAcc lp f) :
    ∀ ts r ts',
      pbind (sub f ts) (fun left ts1 => lp f left ts1) = some (r, ts') →
      ts'.length ≤ ts.length ∧ (r.isSome = true → ts'.length < ts.length) := by
  intro ts r ts' h
  constructor
  · refine pbind_len (fun r1 ts1 h1 => (hsub ts r1 ts1 h1).1) ?_ r ts' h
    intro v ts1 h1 r2 ts2 h2
    exact le_trans (hlp v ts1 r2 ts2 h2) (hsub ts (some v) ts1 h1).1
  · intro hs
    rcases r with _ | e
    · simp at hs
    · refine pbind_success_lt ?_ ?_ e ts' h
      · intro v ts1 h1
        exact (hsub ts (some v) ts1 h1).2 (by simp)
      · intro v ts1 h1 e2 ts2 h2
        exact hlp v ts1 (some e2) ts2 h2

/-- One arm of a binary-operator fold: after the consumed operator token,
parse the right operand and loop; the remainder stays within the arm's
input plus the operator token. -/
theorem loop_arm_len {α : Type} {f : Nat} {rest ts' : List Tokens}
    {sub : Nat → List Tokens → PRes α}
    {lp : Nat → α → List Tokens → PRes α} {acc2 : α → α} {r : Option α}
    (hsub : PLenS sub f) (hlp : PLenAcc lp f)
    (h : pbind (sub f rest) (fun right ts1 => lp f (acc2 right) ts1)
      = some (r, ts')) :
    ts'.length ≤ rest.length + 1 := by
  have hb : ts'.length ≤ rest.length :=
    pbind_len (fun r1 ts1 h1 => (hsub rest r1 ts1 h1).1)
      (fun v ts1 h1 r2 ts2 h2 =>
        le_trans (hlp _ ts1 r2 ts2 h2) (hsub rest (some v) ts1 h1).1)
      r ts' h
  omega

/-- Cursor-progress bounds for the expression grammar: no function grows
the remaining-token list, and every successful expression parse strictly
consumes at least one token. -/
theorem exprLen : ∀ f : Nat,
    PLenS parse_expression f
  ∧ PLenS parse_logical_or f
  ∧ PLenAcc parse_logical_or_loop f
  ∧ PLenS parse_logical_and f
  ∧ PLenAcc parse_logical_and_loop f
  ∧ PLenS parse_equality f
  ∧ PLenAcc parse_equality_loop f
  ∧ PLenS parse_comparison f
  ∧ PLenS parse_term f
  ∧ PLenAcc parse_term_loop f
  ∧ PLenS parse_factor f
  ∧ PLenAcc parse_factor_loop f
  ∧ PLenS parse_unary f
  ∧ PLenS parse_primary f
  ∧ PLen parse_expr_list f
  ∧ PLen parse_function_arguments f
  ∧ PLenAcc parse_member_access_or_call f := by
  intro f
  induction f with
  | zero =>
    exact ⟨fun ts r ts' h => absurd h (by simp [parse_expression]),
      fun ts r ts' h => absurd h (by simp [parse_logical_or]),
      fun x ts r ts' h => absurd h (by simp [parse_logical_or_loop]),
      fun ts r ts' h => absurd h (by simp [parse_logical_and]),
      fun x ts r ts' h => absurd h (by simp [parse_logical_and_loop]),
      fun ts r ts' h => absurd h (by simp [parse_equality]),
      fun x ts r ts' h => absurd h (by simp [parse_equality_loop]),
      fun ts r ts' h => absurd h (by simp [parse_comparison]),
      fun ts r ts' h => absurd h (by simp [parse_term]),
      fun x ts r ts' h => absurd h (by simp [parse_term_loop]),
      fun ts r ts' h => absurd h (by simp [parse_factor]),
      fun x ts r ts' h => absurd h (by simp [parse_factor_loop]),
      fun ts r ts' h => absurd h (by simp [parse_unary]),
      fun ts r ts' h => absurd h (by simp [parse_primary]),
      fun ts r ts' h => absurd h (by simp [parse_expr_list]),
      fun ts r ts' h => absurd h (by simp [parse_function_arguments]),
      fun x ts r ts' h => absurd h (by simp [parse_member_access_or_call])⟩
  | succ f ih =>
    obtain ⟨ihExpr, ihOr, ihOrLoop, ihAnd, ihAndLoop, ihEq, ihEqLoop,
      ihComp, ihTerm, ihTermLoop, ihFactor, ihFactorLoop, ihUnary,
      ihPrimary, ihExprList, ihArgs, ihMac⟩ := ih
    refine ⟨?_, ?_, ?_, ?_, ?_, ?_, ?_, ?_, ?_, ?_, ?_, ?_, ?_, ?_, ?_,
      ?_, ?_⟩
    · intro ts r ts' h
      simp only [parse_expression] at h
      exact ihOr ts r ts' h
    · intro ts r ts' h
      simp only [parse_logical_or] at h
      exact level_len ihAnd ihOrLoop ts r ts' h
    · intro left ts r ts' h
      simp only [parse_logical_or_loop] at h
      split at h <;>
        first
        | (rename_i rest
           simpa using loop_arm_len ihAnd ihOrLoop h)
        | (simp only [Option.some.injEq, Prod.mk.injEq] at h
           obtain ⟨-, rfl⟩ := h
           exact le_refl _)
    · intro ts r ts' h
      simp only [parse_logical_and] at h
      exact level_len ihEq ihAndLoop ts r ts' h
    · intro left ts r ts' h
      simp only [parse_logical_and_loop] at h
      split at h <;>
        first
        | (rename_i rest
           simpa using loop_arm_len ihEq ihAndLoop h)
        | (simp only [Option.some.injEq, Prod.mk.injEq] at h
           obtain ⟨-, rfl⟩ := h
           exact le_refl _)
    · intro ts r ts' h
      simp only [parse_equality] at h
      exact level_len ihComp ihEqLoop ts r ts' h
    · intro left ts r ts' h
      simp only [parse_equality_loop] at h
      split at h <;>
        first
        | (rename_i rest
           simpa using loop_arm_len ihComp ihEqLoop h)
        | (simp only [Option.some.injEq, Prod.mk.injEq] at h
           obtain ⟨-, rfl⟩ := h
           exact le_refl _)
    · intro ts r ts' h
      simp only [parse_comparison] at h
      exact ihTerm ts r ts' h
    · intro ts r ts' h
      simp only [parse_term] at h
      exact level_len ihFactor ihTermLoop ts r ts' h
    · intro left ts r ts' h
      simp only [parse_term_loop] at h
      split at h <;>
        first
        | (rename_i rest
           simpa using loop_arm_len ihFactor ihTermLoop h)
        | (simp only [Option.some.injEq, Prod.mk.injEq] at h
           obtain ⟨-, rfl⟩ := h
           exact le_refl _)
    · intro ts r ts' h
      simp only [parse_factor] at h
      exact level_len ihUnary ihFactorLoop ts r ts' h
    · intro left ts r ts' h
      simp only [parse_factor_loop] at h
      split at h <;>
        first
        | (rename_i rest
           simpa using loop_arm_len ihUnary ihFactorLoop h)
        | (simp only [Option.some.injEq, Prod.mk.injEq] at h
           obtain ⟨-, rfl⟩ := h
           exact le_refl _)
    · intro ts r ts' h
      simp only [parse_unary] at h
      split at h
      · rename_i rest
        have hb : ts'.length ≤ rest.length :=
          pbind_len (fun r1 ts1 h1 => (ihUnary rest r1 ts1 h1).1)
            (fun v ts1 h1 r2 ts2 h2 => by
              simp only [Option.some.injEq, Prod.mk.injEq] at h2
              obtain ⟨-, rfl⟩ := h2
              exact (ihUnary rest (some v) ts1 h1).1) r ts' h
        simp only [List.length_cons]
        exact ⟨by omega, fun _ => by omega⟩
      · rename_i rest
        have hb : ts'.length ≤ rest.length :=
          pbind_len (fun r1 ts1 h1 => (ihUnary rest r1 ts1 h1).1)
            (fun v ts1 h1 r2 ts2 h2 => by
              simp only [Option.some.injEq, Prod.mk.injEq] at h2
              obtain ⟨-, rfl⟩ := h2
              exact (ihUnary rest (some v) ts1 h1).1) r ts' h
        simp only [List.length_cons]
        exact ⟨by omega, fun _ => by omega⟩
      · exact ihPrimary ts r ts' h
    · intro ts r ts' h
      simp only [parse_primary] at h
      split at h
      · rename_i v rest
        simp only [Option.some.injEq, Prod.mk.injEq] at h
        obtain ⟨-, rfl⟩ := h
        simp only [List.length_cons]
        exact ⟨by omega, fun _ => by omega⟩
      · rename_i name rest
        have hb := ihMac (AstExpressions.var name) rest r ts' h
        simp only [List.length_cons]
        exact ⟨by omega, fun _ => by omega⟩
      · rename_i rest
        have hb := ihMac (AstExpressions.var "self") rest r ts' h
        simp only [List.length_cons]
        exact ⟨by omega, fun _ => by omega⟩
      · rename_i rest
        have hb : ts'.length ≤ rest.length := by
          refine pbind_len (fun r1 ts1 h1 => (ihExpr rest r1 ts1 h1).1)
            ?_ r ts' h
          intro v ts1 h1 r2 ts2 h2
          have h1b := (ihExpr rest (some v) ts1 h1).1
          split at h2
          · rename_i ts2'
            simp only [Option.some.injEq, Prod.mk.injEq] at h2
            obtain ⟨-, rfl⟩ := h2
            simp only [List.length_cons] at h1b
            omega
          · simp only [Option.some.injEq, Prod.mk.injEq] at h2
            obtain ⟨-, rfl⟩ := h2
            exact h1b
        simp only [List.length_cons]
        exact ⟨by omega, fun _ => by omega⟩
      · rename_i rest
        split at h
        · rename_i ts2
          simp only [Option.some.injEq, Prod.mk.injEq] at h
          obtain ⟨-, rfl⟩ := h
          simp only [List.length_cons]
          exact ⟨by omega, fun _ => by omega⟩
        · have hb : ts'.length ≤ rest.length := by
            refine pbind_len (fun r1 ts1 h1 => ihExprList rest r1 ts1 h1)
              ?_ r ts' h
            intro v ts1 h1 r2 ts2 h2
            have h1b := ihExprList rest (some v) ts1 h1
            split at h2
            · rename_i ts2'
              simp only [Option.some.injEq, Prod.mk.injEq] at h2
              obtain ⟨-, rfl⟩ := h2
              simp only [List.length_cons] at h1b
              omega
            · simp only [Option.some.injEq, Prod.mk.injEq] at h2
              obtain ⟨-, rfl⟩ := h2
              exact h1b
          simp only [List.length_cons]
          exact ⟨by omega, fun _ => by omega⟩
      · simp only [Option.some.injEq, Prod.mk.injEq] at h
        obtain ⟨rfl, rfl⟩ := h
        exact ⟨le_refl _, fun hs => by simp at hs⟩
    · intro ts r ts' h
      simp only [parse_expr_list] at h
      refine pbind_len (fun r1 ts1 h1 => (ihExpr ts r1 ts1 h1).1) ?_ r ts' h
      intro v ts1 h1 r2 ts2 h2
      have h1b := (ihExpr ts (some v) ts1 h1).1
      split at h2
      · rename_i ts2'
        have hb : ts2.length ≤ ts2'.length :=
          pbind_len (fun r3 ts3 h3 => ihExprList ts2' r3 ts3 h3)
            (fun w ts3 h3 r4 ts4 h4 => by
              simp only [Option.some.injEq, Prod.mk.injEq] at h4
              obtain ⟨-, rfl⟩ := h4
              exact ihExprList ts2' (some w) ts3 h3) r2 ts2 h2
        simp only [List.length_cons] at h1b
        omega
      · simp only [Option.some.injEq, Prod.mk.injEq] at h2
        obtain ⟨-, rfl⟩ := h2
        exact h1b
    · intro ts r ts' h
      simp only [parse_function_arguments] at h
      split at h
      · simp only [Option.some.injEq, Prod.mk.injEq] at h
        obtain ⟨-, rfl⟩ := h
        exact le_refl _
      · exact ihExprList ts r ts' h
    · intro e ts r ts' h
      simp only [parse_member_access_or_call] at h
      split at h
      · rename_i rest
        split at h
        · rename_i member rest2
          split at h
          · rename_i rest3
            have hb : ts'.length ≤ rest3.length := by
              refine pbind_len (fun r1 ts1 h1 => ihArgs rest3 r1 ts1 h1)
                ?_ r ts' h
              intro v ts1 h1 r2 ts2 h2
              have h1b := ihArgs rest3 (some v) ts1 h1
              split at h2
              · rename_i ts2'
                have := ihMac _ ts2' r2 ts2 h2
                simp only [List.length_cons] at h1b
                omega
              · simp only [Option.some.injEq, Prod.mk.injEq] at h2
                obtain ⟨-, rfl⟩ := h2
                exact h1b
            simp only [List.length_cons]
            omega
          · have := ihMac _ rest2 r ts' h
            simp only [List.length_cons]
            omega
        · rename_i tok rest2
          simp only [Option.some.injEq, Prod.mk.injEq] at h
          obtain ⟨-, rfl⟩ := h
          simp only [List.length_cons]
          omega
        · simp only [Option.some.injEq, Prod.mk.injEq] at h
          obtain ⟨-, rfl⟩ := h
          simp
      · rename_i rest
        have hb : ts'.length ≤ rest.length := by
          refine pbind_len (fun r1 ts1 h1 => ihArgs rest r1 ts1 h1)
            ?_ r ts' h
          intro v ts1 h1 r2 ts2 h2
          have h1b := ihArgs rest (some v) ts1 h1
          split at h2
          · rename_i ts2'
            split at h2
            · have := ihMac _ ts2' r2 ts2 h2
              simp only [List.length_cons] at h1b
              omega
            · simp only [Option.some.injEq, Prod.mk.injEq] at h2
              obtain ⟨-, rfl⟩ := h2
              simp only [List.length_cons] at h1b
              omega
          · simp only [Option.some.injEq, Prod.mk.injEq] at h2
            obtain ⟨-, rfl⟩ := h2
            exact h1b
        simp only [List.length_cons]
        omega
      · simp only [Option.some.injEq, Prod.mk.injEq] at h
        obtain ⟨-, rfl⟩ := h
        exact le_refl _

/-- Cursor-progress bounds for the parameter-list grammar: none of the
four mutually recursive functions grows the remaining-token list. -/
theorem paramsLen : ∀ f : Nat,
    PLen parse_function_parameters f
  ∧ PLen parse_params_loop f
  ∧ PLenAcc parse_param_after_name f
  ∧ PLenAcc parse_params_comma f := by
  intro f
  induction f with
  | zero =>
    exact ⟨fun ts r ts' h => absurd h (by simp [parse_function_parameters]),
      fun ts r ts' h => absurd h (by simp [parse_params_loop]),
      fun x ts r ts' h => absurd h (by simp [parse_param_after_name]),
      fun x ts r ts' h => absurd h (by simp [parse_params_comma])⟩
  | succ f ih =>
    obtain ⟨ihP, ihL, ihA, ihC⟩ := ih
    refine ⟨?_, ?_, ?_, ?_⟩
    · intro ts r ts' h
      simp only [parse_function_parameters] at h
      split at h
      · simp only [Option.some.injEq, Prod.mk.injEq] at h
        obtain ⟨-, rfl⟩ := h
        exact le_refl _
      · exact ihL ts r ts' h
    · intro ts r ts' h
      simp only [parse_params_loop] at h
      split at h
      · rename_i n ts1
        have := ihA n ts1 r ts' h
        simp only [List.length_cons]
        omega
      · rename_i ts1
        have := ihA "self" ts1 r ts' h
        simp only [List.length_cons]
        omega
      · rename_i t ts1
        simp only [Option.some.injEq, Prod.mk.injEq] at h
        obtain ⟨-, rfl⟩ := h
        simp only [List.length_cons]
        omega
      · simp only [Option.some.injEq, Prod.mk.injEq] at h
        obtain ⟨-, rfl⟩ := h
        simp
    · intro n ts r ts' h
      simp only [parse_param_after_name] at h
      split at h
      · exact ihC _ ts r ts' h
      · split at h
        · rename_i ts1
          split at h
          · rename_i t ts2
            have := ihC _ ts2 r ts' h
            simp only [List.length_cons]
            omega
          · rename_i tok ts2
            simp only [Option.some.injEq, Prod.mk.injEq] at h
            obtain ⟨-, rfl⟩ := h
            simp only [List.length_cons]
            omega
          · simp only [Option.some.injEq, Prod.mk.injEq] at h
            obtain ⟨-, rfl⟩ := h
            simp
        · simp only [Option.some.injEq, Prod.mk.injEq] at h
          obtain ⟨-, rfl⟩ := h
          exact le_refl _
    · intro param ts r ts' h
      simp only [parse_params_comma] at h
      split at h
      · rename_i ts1
        have hb : ts'.length ≤ ts1.length := by
          refine pbind_len (fun r1 tsa h1 => ihL ts1 r1 tsa h1) ?_ r ts' h
          intro v tsa h1 r2 tsb h2
          simp only [Option.some.injEq, Prod.mk.injEq] at h2
          obtain ⟨-, rfl⟩ := h2
          exact ihL ts1 (some v) tsa h1
        simp only [List.length_cons]
        omega
      · simp only [Option.some.injEq, Prod.mk.injEq] at h
        obtain ⟨-, rfl⟩ := h
        exact le_refl _

/-- Cursor-progress bounds for the statement grammar: no function grows
the remaining-token list, and a successful `parse_statement` strictly
consumes at least one token. -/
theorem stmtLen : ∀ f : Nat,
    PLenS parse_statement f
  ∧ PLenS parse_variable_declaration f
  ∧ (∀ n dt ts r ts', parse_var_decl_rest f n dt ts = some (r, ts') →
      ts'.length ≤ ts.length)
  ∧ PLenS parse_conditional_statement f
  ∧ PLenS parse_for_loop f
  ∧ PLenS parse_while_loop f
  ∧ PLenS parse_function_declaration f
  ∧ PLenS parse_return_statement f
  ∧ PLenS parse_class_declaration f
  ∧ PLenAcc parse_class_attrs f
  ∧ PLenAcc parse_class_methods f
  ∧ PLenS parse_assignment_or_expression f
  ∧ PLenS parse_block_statement f
  ∧ (∀ ts stmts ts', parse_block_body f ts = some (stmts, ts') →
      ts'.length ≤ ts.length) := by
  intro f
  induction f with
  | zero =>
    exact ⟨fun ts r ts' h => absurd h (by simp [parse_statement]),
      fun ts r ts' h => absurd h (by simp [parse_variable_declaration]),
      fun n dt ts r ts' h => absurd h (by simp [parse_var_decl_rest]),
      fun ts r ts' h => absurd h (by simp [parse_conditional_statement]),
      fun ts r ts' h => absurd h (by simp [parse_for_loop]),
      fun ts r ts' h => absurd h (by simp [parse_while_loop]),
      fun ts r ts' h => absurd h (by simp [parse_function_declaration]),
      fun ts r ts' h => absurd h (by simp [parse_return_statement]),
      fun ts r ts' h => absurd h (by simp [parse_class_declaration]),
      fun x ts r ts' h => absurd h (by simp [parse_class_attrs]),
      fun x ts r ts' h => absurd h (by simp [parse_class_methods]),
      fun ts r ts' h => absurd h (by simp [parse_assignment_or_expression]),
      fun ts r ts' h => absurd h (by simp [parse_block_statement]),
      fun ts stmts ts' h => absurd h (by simp [parse_block_body])⟩
  | succ f ih =>
    obtain ⟨ihS, ihVD, ihVR, ihIF, ihFOR, ihWH, ihFN, ihRET, ihCL, ihCA,
      ihCM, ihAOE, ihBS, ihBB⟩ := ih
    refine ⟨?_, ?_, ?_, ?_, ?_, ?_, ?_, ?_, ?_, ?_, ?_, ?_, ?_, ?_⟩
    · intro ts r ts' h
      simp only [parse_statement] at h
      split at h
      · exact ihVD _ r ts' h
      · exact ihIF _ r ts' h
      · exact ihFOR _ r ts' h
      · exact ihFN _ r ts' h
      · exact ihRET _ r ts' h
      · exact ihAOE _ r ts' h
      · exact ihBS _ r ts' h
      · exact ihWH _ r ts' h
      · exact ihCL _ r ts' h
      · simp only [Option.some.injEq, Prod.mk.injEq] at h
        obtain ⟨rfl, rfl⟩ := h
        exact ⟨le_refl _, fun hs => by simp at hs⟩
    · intro ts r ts' h
      simp only [parse_variable_declaration] at h
      split at h
      · rename_i ts1
        split at h
        · rename_i n ts2
          split at h
          · rename_i ts3
            split at h
            · rename_i t ts4
              have hb := ihVR n (some t) ts4 r ts' h
              exact ⟨by simp only [List.length_cons]; omega,
                fun _ => by simp only [List.length_cons]; omega⟩
            · rename_i tok ts4
              simp only [Option.some.injEq, Prod.mk.injEq] at h
              obtain ⟨rfl, rfl⟩ := h
              exact ⟨by simp only [List.length_cons]; omega,
                fun hs => by simp at hs⟩
            · simp only [Option.some.injEq, Prod.mk.injEq] at h
              obtain ⟨rfl, rfl⟩ := h
              exact ⟨by simp, fun hs => by simp at hs⟩
          · have hb := ihVR n none ts2 r ts' h
            exact ⟨by simp only [List.length_cons]; omega,
              fun _ => by simp only [List.length_cons]; omega⟩
        · rename_i tok ts2
          simp only [Option.some.injEq, Prod.mk.injEq] at h
          obtain ⟨rfl, rfl⟩ := h
          exact ⟨by simp only [List.length_cons]; omega,
            fun hs => by simp at hs⟩
        · simp only [Option.some.injEq, Prod.mk.injEq] at h
          obtain ⟨rfl, rfl⟩ := h
          exact ⟨by simp, fun hs => by simp at hs⟩
      · simp only [Option.some.injEq, Prod.mk.injEq] at h
        obtain ⟨rfl, rfl⟩ := h
        exact ⟨le_refl _, fun hs => by simp at hs⟩
    · intro n dt ts r ts' h
      simp only [parse_var_decl_rest] at h
      split at h
      · rename_i ts1
        have hb : ts'.length ≤ ts1.length := by
          refine pbind_len (fun r1 tsa h1 => ((exprLen f).1 ts1 r1 tsa h1).1)
            ?_ r ts' h
          intro v tsa h1 r2 tsb h2
          simp only [Option.some.injEq, Prod.mk.injEq] at h2
          obtain ⟨-, rfl⟩ := h2
          exact ((exprLen f).1 ts1 (some v) tsa h1).1
        simp only [List.length_cons]
        omega
      · simp only [Option.some.injEq, Prod.mk.injEq] at h
        obtain ⟨-, rfl⟩ := h
        exact le_refl _
    · intro ts r ts' h
      simp only [parse_conditional_statement] at h
      split at h
      · rename_i ts1
        split at h
        · rename_i ts2
          have hb : ts'.length ≤ ts2.length := by
            refine pbind_len
              (fun r1 tsa h1 => ((exprLen f).1 ts2 r1 tsa h1).1) ?_ r ts' h
            intro cond ts3 h1 r2 tsb h2
            have h1b := ((exprLen f).1 ts2 (some cond) ts3 h1).1
            split at h2
            · rename_i ts4
              split at h2
              · rename_i ts5
                split at h2
                · simp at h2
                · rename_i then_branch ts6 heq
                  have hb1 := ihBB ts5 then_branch ts6 heq
                  split at h2
                  · rename_i ts7
                    split at h2
                    · rename_i ts8
                      split at h2
                      · rename_i ts9
                        split at h2
                        · simp at h2
                        · rename_i else_statements ts10 heq2
                          have hb2 := ihBB ts9 else_statements ts10 heq2
                          split at h2
                          · rename_i ts11
                            simp only [Option.some.injEq,
                              Prod.mk.injEq] at h2
                            obtain ⟨-, rfl⟩ := h2
                            simp only [List.length_cons] at h1b hb1 hb2
                            omega
                          · simp only [Option.some.injEq,
                              Prod.mk.injEq] at h2
                            obtain ⟨-, rfl⟩ := h2
                            simp only [List.length_cons] at h1b hb1
                            omega
                      · simp only [Option.some.injEq, Prod.mk.injEq] at h2
                        obtain ⟨-, rfl⟩ := h2
                        simp only [List.length_cons] at h1b hb1
                        omega
                    · simp only [Option.some.injEq, Prod.mk.injEq] at h2
                      obtain ⟨-, rfl⟩ := h2
                      simp only [List.length_cons] at h1b hb1
                      omega
                  · simp only [Option.some.injEq, Prod.mk.injEq] at h2
                    obtain ⟨-, rfl⟩ := h2
                    simp only [List.length_cons] at h1b
                    omega
              · simp only [Option.some.injEq, Prod.mk.injEq] at h2
                obtain ⟨-, rfl⟩ := h2
                simp only [List.length_cons] at h1b
                omega
            · simp only [Option.some.injEq, Prod.mk.injEq] at h2
              obtain ⟨-, rfl⟩ := h2
              exact h1b
          exact ⟨by simp only [List.length_cons]; omega,
            fun _ => by simp only [List.length_cons]; omega⟩
        · simp only [Option.some.injEq, Prod.mk.injEq] at h
          obtain ⟨rfl, rfl⟩ := h
          exact ⟨by simp only [List.length_cons]; omega,
            fun hs => by simp at hs⟩
      · simp only [Option.some.injEq, Prod.mk.injEq] at h
        obtain ⟨rfl, rfl⟩ := h
        exact ⟨le_refl _, fun hs => by simp at hs⟩
    · intro ts r ts' h
      simp only [parse_for_loop] at h
      split at h
      · rename_i ts1
        split at h
        · rename_i n ts2
          split at h
          · rename_i ts3
            split at h
            · rename_i ts4
              split at h
              · rename_i ts5
                split at h
                · rename_i ts6
                  have hb : ts'.length ≤ ts6.length := by
                    refine pbind_len
                      (fun r1 tsa h1 => ((exprLen f).1 ts6 r1 tsa h1).1)
                      ?_ r ts' h
                    intro start ts7 h1 r2 tsb h2
                    have h1b := ((exprLen f).1 ts6 (some start) ts7 h1).1
                    split at h2
                    · rename_i ts8
                      have hb2 : tsb.length ≤ ts8.length := by
                        refine pbind_len
                          (fun r1 tsa hx =>
                            ((exprLen f).1 ts8 r1 tsa hx).1) ?_ r2 tsb h2
                        intro stop ts9 h3 r3 tsc h4
                        have h3b := ((exprLen f).1 ts8 (some stop) ts9 h3).1
                        split at h4
                        · rename_i ts10
                          have hb3 : tsc.length ≤ ts10.length := by
                            refine pbind_len
                              (fun r1 tsa hx =>
                                ((exprLen f).1 ts10 r1 tsa hx).1) ?_ r3 tsc h4
                            intro step ts11 h5 r4 tsd h6
                            have h5b :=
                              ((exprLen f).1 ts10 (some step) ts11 h5).1
                            split at h6
                            · rename_i ts12
                              split at h6
                              · rename_i ts13
                                split at h6
                                · simp at h6
                                · rename_i body ts14 heq
                                  have hbb := ihBB ts13 body ts14 heq
                                  split at h6
                                  · rename_i ts15
                                    simp only [Option.some.injEq,
                                      Prod.mk.injEq] at h6
                                    obtain ⟨-, rfl⟩ := h6
                                    simp only [List.length_cons]
                                      at h5b hbb
                                    omega
                                  · simp only [Option.some.injEq,
                                      Prod.mk.injEq] at h6
                                    obtain ⟨-, rfl⟩ := h6
                                    simp only [List.length_cons] at h5b
                                    omega
                              · simp only [Option.some.injEq,
                                  Prod.mk.injEq] at h6
                                obtain ⟨-, rfl⟩ := h6
                                simp only [List.length_cons] at h5b
                                omega
                            · simp only [Option.some.injEq,
                                Prod.mk.injEq] at h6
                              obtain ⟨-, rfl⟩ := h6
                              exact h5b
                          simp only [List.length_cons] at h3b
                          omega
                        · simp only [Option.some.injEq, Prod.mk.injEq] at h4
                          obtain ⟨-, rfl⟩ := h4
                          exact h3b
                      simp only [List.length_cons] at h1b
                      omega
                    · simp only [Option.some.injEq, Prod.mk.injEq] at h2
                      obtain ⟨-, rfl⟩ := h2
                      exact h1b
                  exact ⟨by simp only [List.length_cons]; omega,
                    fun _ => by simp only [List.length_cons]; omega⟩
                · simp only [Option.some.injEq, Prod.mk.injEq] at h
                  obtain ⟨rfl, rfl⟩ := h
                  exact ⟨by simp only [List.length_cons]; omega,
                    fun hs => by simp at hs⟩
              · simp only [Option.some.injEq, Prod.mk.injEq] at h
                obtain ⟨rfl, rfl⟩ := h
                exact ⟨by simp only [List.length_cons]; omega,
                  fun hs => by simp at hs⟩
            · simp only [Option.some.injEq, Prod.mk.injEq] at h
              obtain ⟨rfl, rfl⟩ := h
              exact ⟨by simp only [List.length_cons]; omega,
                fun hs => by simp at hs⟩
          · simp only [Option.some.injEq, Prod.mk.injEq] at h
            obtain ⟨rfl, rfl⟩ := h
            exact ⟨by simp only [List.length_cons]; omega,
              fun hs => by simp at hs⟩
        · rename_i tok ts2
          simp only [Option.some.injEq, Prod.mk.injEq] at h
          obtain ⟨rfl, rfl⟩ := h
          exact ⟨by simp only [List.length_cons]; omega,
            fun hs => by simp at hs⟩
        · simp only [Option.some.injEq, Prod.mk.injEq] at h
          obtain ⟨rfl, rfl⟩ := h
          exact ⟨by simp, fun hs => by simp at hs⟩
      · simp only [Option.some.injEq, Prod.mk.injEq] at h
        obtain ⟨rfl, rfl⟩ := h
        exact ⟨le_refl _, fun hs => by simp at hs⟩
    · intro ts r ts' h
      simp only [parse_while_loop] at h
      split at h
      · rename_i ts1
        split at h
        · rename_i ts2
          have hb : ts'.length ≤ ts2.length := by
            refine pbind_len
              (fun r1 tsa h1 => ((exprLen f).1 ts2 r1 tsa h1).1) ?_ r ts' h
            intro cond ts3 h1 r2 tsb h2
            have h1b := ((exprLen f).1 ts2 (some cond) ts3 h1).1
            split at h2
            · rename_i ts4
              split at h2
              · rename_i ts5
                split at h2
                · simp at h2
                · rename_i body ts6 heq
                  have hbb := ihBB ts5 body ts6 heq
                  split at h2
                  · rename_i ts7
                    simp only [Option.some.injEq, Prod.mk.injEq] at h2
                    obtain ⟨-, rfl⟩ := h2
                    simp only [List.length_cons] at h1b hbb
                    omega
                  · simp only [Option.some.injEq, Prod.mk.injEq] at h2
                    obtain ⟨-, rfl⟩ := h2
                    simp only [List.length_cons] at h1b
                    omega
              · simp only [Option.some.injEq, Prod.mk.injEq] at h2
                obtain ⟨-, rfl⟩ := h2
                simp only [List.length_cons] at h1b
                omega
            · simp only [Option.some.injEq, Prod.mk.injEq] at h2
              obtain ⟨-, rfl⟩ := h2
              exact h1b
          exact ⟨by simp only [List.length_cons]; omega,
            fun _ => by simp only [List.length_cons]; omega⟩
        · simp only [Option.some.injEq, Prod.mk.injEq] at h
          obtain ⟨rfl, rfl⟩ := h
          exact ⟨by simp only [List.length_cons]; omega,
            fun hs => by simp at hs⟩
      · simp only [Option.some.injEq, Prod.mk.injEq] at h
        obtain ⟨rfl, rfl⟩ := h
        exact ⟨le_refl _, fun hs => by simp at hs⟩
    · intro ts r ts' h
      simp only [parse_function_declaration] at h
      split at h
      · rename_i ts1
        split at h
        · rename_i n ts2
          split at h
          · rename_i ts3
            have hb : ts'.length ≤ ts3.length := by
              refine pbind_len
                (fun r1 tsa h1 => (paramsLen f).1 ts3 r1 tsa h1) ?_ r ts' h
              intro ps ts4 h1 r2 tsb h2
              have h1b := (paramsLen f).1 ts3 (some ps) ts4 h1
              split at h2
              · rename_i ts5
                split at h2
                · rename_i ts6
                  split at h2
                  · simp at h2
                  · rename_i body ts7 heq
                    have hbb := ihBB ts6 body ts7 heq
                    split at h2
                    · rename_i ts8
                      simp only [Option.some.injEq, Prod.mk.injEq] at h2
                      obtain ⟨-, rfl⟩ := h2
                      simp only [List.length_cons] at h1b hbb
                      omega
                    · simp only [Option.some.injEq, Prod.mk.injEq] at h2
                      obtain ⟨-, rfl⟩ := h2
                      simp only [List.length_cons] at h1b
                      omega
                · simp only [Option.some.injEq, Prod.mk.injEq] at h2
                  obtain ⟨-, rfl⟩ := h2
                  simp only [List.length_cons] at h1b
                  omega
              · simp only [Option.some.injEq, Prod.mk.injEq] at h2
                obtain ⟨-, rfl⟩ := h2
                exact h1b
            exact ⟨by simp only [List.length_cons]; omega,
              fun _ => by simp only [List.length_cons]; omega⟩
          · simp only [Option.some.injEq, Prod.mk.injEq] at h
            obtain ⟨rfl, rfl⟩ := h
            exact ⟨by simp only [List.length_cons]; omega,
              fun hs => by simp at hs⟩
        · rename_i tok ts2
          simp only [Option.some.injEq, Prod.mk.injEq] at h
          obtain ⟨rfl, rfl⟩ := h
          exact ⟨by simp only [List.length_cons]; omega,
            fun hs => by simp at hs⟩
        · simp only [Option.some.injEq, Prod.mk.injEq] at h
          obtain ⟨rfl, rfl⟩ := h
          exact ⟨by simp, fun hs => by simp at hs⟩
      · simp only [Option.some.injEq, Prod.mk.injEq] at h
        obtain ⟨rfl, rfl⟩ := h
        exact ⟨le_refl _, fun hs => by simp at hs⟩
    · intro ts r ts' h
      simp only [parse_return_statement] at h
      split at h
      · rename_i ts1
        split at h
        · rename_i rest
          simp only [Option.some.injEq, Prod.mk.injEq] at h
          obtain ⟨rfl, rfl⟩ := h
          exact ⟨by simp only [List.length_cons]; omega,
            fun _ => by simp only [List.length_cons]; omega⟩
        · rename_i rest
          simp only [Option.some.injEq, Prod.mk.injEq] at h
          obtain ⟨rfl, rfl⟩ := h
          exact ⟨by simp only [List.length_cons]; omega,
            fun _ => by simp only [List.length_cons]; omega⟩
        · rename_i rest
          simp only [Option.some.injEq, Prod.mk.injEq] at h
          obtain ⟨rfl, rfl⟩ := h
          exact ⟨by simp only [List.length_cons]; omega,
            fun _ => by simp only [List.length_cons]; omega⟩
        · rename_i rest
          simp only [Option.some.injEq, Prod.mk.injEq] at h
          obtain ⟨rfl, rfl⟩ := h
          exact ⟨by simp only [List.length_cons]; omega,
            fun _ => by simp only [List.length_cons]; omega⟩
        · simp only [Option.some.injEq, Prod.mk.injEq] at h
          obtain ⟨rfl, rfl⟩ := h
          exact ⟨by simp, fun _ => by simp⟩
        · have hb : ts'.length ≤ ts1.length := by
            refine pbind_len
              (fun r1 tsa h1 => ((exprLen f).1 ts1 r1 tsa h1).1) ?_ r ts' h
            intro v tsa h1 r2 tsb h2
            simp only [Option.some.injEq, Prod.mk.injEq] at h2
            obtain ⟨-, rfl⟩ := h2
            exact ((exprLen f).1 ts1 (some v) tsa h1).1
          exact ⟨by simp only [List.length_cons]; omega,
            fun _ => by simp only [List.length_cons]; omega⟩
      · simp only [Option.some.injEq, Prod.mk.injEq] at h
        obtain ⟨rfl, rfl⟩ := h
        exact ⟨le_refl _, fun hs => by simp at hs⟩
    · intro ts r ts' h
      simp only [parse_class_declaration] at h
      split at h
      · rename_i ts1
        split at h
        · rename_i class_name ts2
          split at h
          · rename_i ts3
            split at h
            · rename_i ts4
              split at h
              · rename_i ts5
                have hb : ts'.length ≤ ts5.length := by
                  refine pbind_len
                    (fun r1 tsa h1 => ihCA [] ts5 r1 tsa h1) ?_ r ts' h
                  intro fields ts6 h1 r2 tsb h2
                  have h1b := ihCA [] ts5 (some fields) ts6 h1
                  split at h2
                  · rename_i ts7
                    split at h2
                    · rename_i ts8
                      split at h2
                      · rename_i ts9
                        have hb2 : tsb.length ≤ ts9.length := by
                          refine pbind_len
                            (fun r1 tsa hx => ihCM fields ts9 r1 tsa hx)
                            ?_ r2 tsb h2
                          intro fields2 ts10 h3 r3 tsc h4
                          have h3b := ihCM fields ts9 (some fields2) ts10 h3
                          split at h4
                          · rename_i ts11
                            split at h4
                            · rename_i ts12
                              simp only [Option.some.injEq,
                                Prod.mk.injEq] at h4
                              obtain ⟨-, rfl⟩ := h4
                              simp only [List.length_cons] at h3b
                              omega
                            · simp only [Option.some.injEq,
                                Prod.mk.injEq] at h4
                              obtain ⟨-, rfl⟩ := h4
                              simp only [List.length_cons] at h3b
                              omega
                          · simp only [Option.some.injEq,
                              Prod.mk.injEq] at h4
                            obtain ⟨-, rfl⟩ := h4
                            exact h3b
                        simp only [List.length_cons] at h1b
                        omega
                      · simp only [Option.some.injEq, Prod.mk.injEq] at h2
                        obtain ⟨-, rfl⟩ := h2
                        simp only [List.length_cons] at h1b
                        omega
                    · split at h2
                      · rename_i ts8
                        simp only [Option.some.injEq, Prod.mk.injEq] at h2
                        obtain ⟨-, rfl⟩ := h2
                        simp only [List.length_cons] at h1b
                        omega
                      · simp only [Option.some.injEq, Prod.mk.injEq] at h2
                        obtain ⟨-, rfl⟩ := h2
                        simp only [List.length_cons] at h1b
                        omega
                  · simp only [Option.some.injEq, Prod.mk.injEq] at h2
                    obtain ⟨-, rfl⟩ := h2
                    exact h1b
                exact ⟨by simp only [List.length_cons]; omega,
                  fun _ => by simp only [List.length_cons]; omega⟩
              · simp only [Option.some.injEq, Prod.mk.injEq] at h
                obtain ⟨rfl, rfl⟩ := h
                exact ⟨by simp only [List.length_cons]; omega,
                  fun hs => by simp at hs⟩
            · simp only [Option.some.injEq, Prod.mk.injEq] at h
              obtain ⟨rfl, rfl⟩ := h
              exact ⟨by simp only [List.length_cons]; omega,
                fun hs => by simp at hs⟩
          · simp only [Option.some.injEq, Prod.mk.injEq] at h
            obtain ⟨rfl, rfl⟩ := h
            exact ⟨by simp only [List.length_cons]; omega,
              fun hs => by simp at hs⟩
        · rename_i tok ts2
          simp only [Option.some.injEq, Prod.mk.injEq] at h
          obtain ⟨rfl, rfl⟩ := h
          exact ⟨by simp only [List.length_cons]; omega,
            fun hs => by simp at hs⟩
        · simp only [Option.some.injEq, Prod.mk.injEq] at h
          obtain ⟨rfl, rfl⟩ := h
          exact ⟨by simp, fun hs => by simp at hs⟩
      · simp only [Option.some.injEq, Prod.mk.injEq] at h
        obtain ⟨rfl, rfl⟩ := h
        exact ⟨le_refl _, fun hs => by simp at hs⟩
    · intro fields ts r ts' h
      simp only [parse_class_attrs] at h
      split at h
      · simp only [Option.some.injEq, Prod.mk.injEq] at h
        obtain ⟨-, rfl⟩ := h
        exact le_refl _
      · simp only [Option.some.injEq, Prod.mk.injEq] at h
        obtain ⟨-, rfl⟩ := h
        exact le_refl _
      · rename_i field_name ts1
        split at h
        · rename_i ts2
          split at h
          · rename_i t ts3
            have := ihCA _ ts3 r ts' h
            simp only [List.length_cons]
            omega
          · rename_i tok ts3
            simp only [Option.some.injEq, Prod.mk.injEq] at h
            obtain ⟨-, rfl⟩ := h
            simp only [List.length_cons]
            omega
          · simp only [Option.some.injEq, Prod.mk.injEq] at h
            obtain ⟨-, rfl⟩ := h
            simp
        · simp only [Option.some.injEq, Prod.mk.injEq] at h
          obtain ⟨-, rfl⟩ := h
          simp only [List.length_cons]
          omega
      · rename_i tok ts1
        simp only [Option.some.injEq, Prod.mk.injEq] at h
        obtain ⟨-, rfl⟩ := h
        simp only [List.length_cons]
        omega
    · intro fields ts r ts' h
      simp only [parse_class_methods] at h
      split at h
      · simp only [Option.some.injEq, Prod.mk.injEq] at h
        obtain ⟨-, rfl⟩ := h
        exact le_refl _
      · simp only [Option.some.injEq, Prod.mk.injEq] at h
        obtain ⟨-, rfl⟩ := h
        exact le_refl _
      · rename_i ts1
        split at h
        · rename_i method_name ts2
          split at h
          · rename_i ts3
            have hb : ts'.length ≤ ts3.length := by
              refine pbind_len
                (fun r1 tsa h1 => (paramsLen f).1 ts3 r1 tsa h1) ?_ r ts' h
              intro ps ts4 h1 r2 tsb h2
              have h1b := (paramsLen f).1 ts3 (some ps) ts4 h1
              split at h2
              · rename_i ts5
                split at h2
                · rename_i ts6
                  split at h2
                  · simp at h2
                  · rename_i body ts7 heq
                    have hbb := ihBB ts6 body ts7 heq
                    split at h2
                    · rename_i ts8
                      have hrec := ihCM _ ts8 r2 tsb h2
                      simp only [List.length_cons] at h1b hbb
                      omega
                    · simp only [Option.some.injEq, Prod.mk.injEq] at h2
                      obtain ⟨-, rfl⟩ := h2
                      simp only [List.length_cons] at h1b
                      omega
                · simp only [Option.some.injEq, Prod.mk.injEq] at h2
                  obtain ⟨-, rfl⟩ := h2
                  simp only [List.length_cons] at h1b
                  omega
              · simp only [Option.some.injEq, Prod.mk.injEq] at h2
                obtain ⟨-, rfl⟩ := h2
                exact h1b
            simp only [List.length_cons]
            omega
          · simp only [Option.some.injEq, Prod.mk.injEq] at h
            obtain ⟨-, rfl⟩ := h
            simp only [List.length_cons]
            omega
        · rename_i tok ts2
          simp only [Option.some.injEq, Prod.mk.injEq] at h
          obtain ⟨-, rfl⟩ := h
          simp only [List.length_cons]
          omega
        · simp only [Option.some.injEq, Prod.mk.injEq] at h
          obtain ⟨-, rfl⟩ := h
          simp
      · simp only [Option.some.injEq, Prod.mk.injEq] at h
        obtain ⟨-, rfl⟩ := h
        exact le_refl _
    · intro ts r ts' h
      simp only [parse_assignment_or_expression] at h
      split at h
      · simp at h
      · rename_i e ts1 heq
        have hexp := (exprLen f).1 ts (some e) ts1 heq
        have hstrict : ts1.length < ts.length := hexp.2 rfl
        split at h
        · rename_i rest
          have hb : ts'.length ≤ rest.length := by
            refine pbind_len
              (fun r1 tsa h1 => ((exprLen f).1 rest r1 tsa h1).1) ?_ r ts' h
            intro v tsa h1 r2 tsb h2
            have h1b := ((exprLen f).1 rest (some v) tsa h1).1
            split at h2
            · simp only [Option.some.injEq, Prod.mk.injEq] at h2
              obtain ⟨-, rfl⟩ := h2
              exact h1b
            · simp only [Option.some.injEq, Prod.mk.injEq] at h2
              obtain ⟨-, rfl⟩ := h2
              exact h1b
            · simp only [Option.some.injEq, Prod.mk.injEq] at h2
              obtain ⟨-, rfl⟩ := h2
              exact h1b
          simp only [List.length_cons] at hstrict
          exact ⟨by omega, fun _ => by omega⟩
        · simp only [Option.some.injEq, Prod.mk.injEq] at h
          obtain ⟨rfl, rfl⟩ := h
          exact ⟨le_of_lt hstrict, fun _ => hstrict⟩
      · rename_i tsx heq
        split at h
        · rename_i n rest
          split at h
          · rename_i r2
            have hb : ts'.length ≤ r2.length := by
              refine pbind_len
                (fun r1 tsa h1 => ((exprLen f).1 r2 r1 tsa h1).1) ?_ r ts' h
              intro v tsa h1 rr tsb h2
              simp only [Option.some.injEq, Prod.mk.injEq] at h2
              obtain ⟨-, rfl⟩ := h2
              exact ((exprLen f).1 r2 (some v) tsa h1).1
            exact ⟨by simp only [List.length_cons]; omega,
              fun _ => by simp only [List.length_cons]; omega⟩
          · constructor
            · refine pbind_len
                (fun r1 tsa h1 => ((exprLen f).1 _ r1 tsa h1).1) ?_ r ts' h
              intro v tsa h1 rr tsb h2
              simp only [Option.some.injEq, Prod.mk.injEq] at h2
              obtain ⟨-, rfl⟩ := h2
              exact ((exprLen f).1 _ (some v) tsa h1).1
            · intro hs
              rcases r with _ | stmt
              · simp at hs
              · refine pbind_success_lt
                  (fun v tsa h1 => ((exprLen f).1 _ (some v) tsa h1).2 rfl)
                  ?_ stmt ts' h
                intro v tsa h1 e2 tsb h2
                simp only [Option.some.injEq, Prod.mk.injEq] at h2
                obtain ⟨-, rfl⟩ := h2
                exact le_refl _
        · rename_i tok rest
          simp only [Option.some.injEq, Prod.mk.injEq] at h
          obtain ⟨rfl, rfl⟩ := h
          exact ⟨by simp only [List.length_cons]; omega,
            fun hs => by simp at hs⟩
        · simp only [Option.some.injEq, Prod.mk.injEq] at h
          obtain ⟨rfl, rfl⟩ := h
          exact ⟨by simp, fun hs => by simp at hs⟩
    · intro ts r ts' h
      simp only [parse_block_statement] at h
      split at h
      · rename_i ts1
        split at h
        · simp at h
        · rename_i statements ts2 heq
          have hbb := ihBB ts1 statements ts2 heq
          split at h
          · rename_i ts3
            simp only [Option.some.injEq, Prod.mk.injEq] at h
            obtain ⟨rfl, rfl⟩ := h
            simp only [List.length_cons] at hbb
            exact ⟨by simp only [List.length_cons]; omega,
              fun _ => by simp only [List.length_cons]; omega⟩
          · simp only [Option.some.injEq, Prod.mk.injEq] at h
            obtain ⟨rfl, rfl⟩ := h
            exact ⟨by simp only [List.length_cons]; omega,
              fun hs => by simp at hs⟩
      · simp only [Option.some.injEq, Prod.mk.injEq] at h
        obtain ⟨rfl, rfl⟩ := h
        exact ⟨le_refl _, fun hs => by simp at hs⟩
    · intro ts stmts ts' h
      simp only [parse_block_body] at h
      split at h
      · simp only [Option.some.injEq, Prod.mk.injEq] at h
        obtain ⟨-, rfl⟩ := h
        exact le_refl _
      · simp only [Option.some.injEq, Prod.mk.injEq] at h
        obtain ⟨-, rfl⟩ := h
        exact le_refl _
      · split at h
        · simp at h
        · rename_i stmt ts1 heq
          have hs1 := (ihS ts (some stmt) ts1 heq).1
          split at h
          · simp at h
          · rename_i stmts2 ts2 heq2
            have hb := ihBB ts1 stmts2 ts2 heq2
            simp only [Option.some.injEq, Prod.mk.injEq] at h
            obtain ⟨-, rfl⟩ := h
            omega
        · rename_i ts1 heq
          have hs1 := (ihS ts none ts1 heq).1
          have hb := ihBB (ts1.drop 1) stmts ts' h
          have hd : (ts1.drop 1).length = ts1.length - 1 := by simp
          omega

/-- Fuel sufficiency: with at least `64 * |ts| + c` fuel the parsing
function cannot run out of fuel. -/
def PSuff {γ : Type} (p : Nat → List Tokens → Option γ) (c f : Nat) : Prop :=
  ∀ ts, 64 * ts.length + c ≤ f → p f ts ≠ none

/-- `PSuff` for a parsing function with an accumulator argument. -/
def PSuffAcc {α β : Type} (p : Nat → β → List Tokens → PRes α) (c f : Nat) :
    Prop :=
  ∀ x ts, 64 * ts.length + c ≤ f → p f x ts ≠ none

/-- Fuel sufficiency for the expression grammar: `64` fuel units per
remaining token plus a small per-function constant rule out fuel
exhaustion. -/
theorem exprSuff : ∀ f : Nat,
    PSuff parse_expression 9 f
  ∧ PSuff parse_logical_or 8 f
  ∧ PSuffAcc parse_logical_or_loop 1 f
  ∧ PSuff parse_logical_and 7 f
  ∧ PSuffAcc parse_logical_and_loop 1 f
  ∧ PSuff parse_equality 6 f
  ∧ PSuffAcc parse_equality_loop 1 f
  ∧ PSuff parse_comparison 5 f
  ∧ PSuff parse_term 4 f
  ∧ PSuffAcc parse_term_loop 1 f
  ∧ PSuff parse_factor 3 f
  ∧ PSuffAcc parse_factor_loop 1 f
  ∧ PSuff parse_unary 2 f
  ∧ PSuff parse_primary 1 f
  ∧ PSuff parse_expr_list 10 f
  ∧ PSuff parse_function_arguments 11 f
  ∧ PSuffAcc parse_member_access_or_call 1 f := by
  intro f
  induction f with
  | zero =>
    exact ⟨fun ts hc => absurd hc (by omega),
      fun ts hc => absurd hc (by omega),
      fun x ts hc => absurd hc (by omega),
      fun ts hc => absurd hc (by omega),
      fun x ts hc => absurd hc (by omega),
      fun ts hc => absurd hc (by omega),
      fun x ts hc => absurd hc (by omega),
      fun ts hc => absurd hc (by omega),
      fun ts hc => absurd hc (by omega),
      fun x ts hc => absurd hc (by omega),
      fun ts hc => absurd hc (by omega),
      fun x ts hc => absurd hc (by omega),
      fun ts hc => absurd hc (by omega),
      fun ts hc => absurd hc (by omega),
      fun ts hc => absurd hc (by omega),
      fun ts hc => absurd hc (by omega),
      fun x ts hc => absurd hc (by omega)⟩
  | succ f ih =>
    obtain ⟨ihExpr, ihOr, ihOrLoop, ihAnd, ihAndLoop, ihEq, ihEqLoop,
      ihComp, ihTerm, ihTermLoop, ihFactor, ihFactorLoop, ihUnary,
      ihPrimary, ihExprList, ihArgs, ihMac⟩ := ih
    obtain ⟨lenE, lenO, lenOL, lenA, lenAL, lenQ, lenQL, lenC, lenT,
      lenTL, lenF, lenFL, lenU, lenP, lenEL, lenAR, lenM⟩ := exprLen f
    refine ⟨?_, ?_, ?_, ?_, ?_, ?_, ?_, ?_, ?_, ?_, ?_, ?_, ?_, ?_, ?_,
      ?_, ?_⟩
    · intro ts hc
      simp only [parse_expression]
      exact ihOr ts (by omega)
    · intro ts hc
      simp only [parse_logical_or]
      refine pbind_ne_none (ihAnd ts (by omega)) ?_
      intro v ts1 h1
      have hle := (lenA ts (some v) ts1 h1).1
      exact ihOrLoop v ts1 (by omega)
    · intro left ts hc
      simp only [parse_logical_or_loop]
      split
      · rename_i rest
        simp only [List.length_cons] at hc
        refine pbind_ne_none (ihAnd rest (by omega)) ?_
        intro v ts1 h1
        have hle := (lenA rest (some v) ts1 h1).1
        exact ihOrLoop _ ts1 (by omega)
      · simp
    · intro ts hc
      simp only [parse_logical_and]
      refine pbind_ne_none (ihEq ts (by omega)) ?_
      intro v ts1 h1
      have hle := (lenQ ts (some v) ts1 h1).1
      exact ihAndLoop v ts1 (by omega)
    · intro left ts hc
      simp only [parse_logical_and_loop]
      split
      · rename_i rest
        simp only [List.length_cons] at hc
        refine pbind_ne_none (ihEq rest (by omega)) ?_
        intro v ts1 h1
        have hle := (lenQ rest (some v) ts1 h1).1
        exact ihAndLoop _ ts1 (by omega)
      · simp
    · intro ts hc
      simp only [parse_equality]
      refine pbind_ne_none (ihComp ts (by omega)) ?_
      intro v ts1 h1
      have hle := (lenC ts (some v) ts1 h1).1
      exact ihEqLoop v ts1 (by omega)
    · intro left ts hc
      simp only [parse_equality_loop]
      split <;>
        first
        | (rename_i rest
           simp only [List.length_cons] at hc
           refine pbind_ne_none (ihComp rest (by omega)) ?_
           intro v ts1 h1
           have hle := (lenC rest (some v) ts1 h1).1
           exact ihEqLoop _ ts1 (by omega))
        | simp
    · intro ts hc
      simp only [parse_comparison]
      exact ihTerm ts (by omega)
    · intro ts hc
      simp only [parse_term]
      refine pbind_ne_none (ihFactor ts (by omega)) ?_
      intro v ts1 h1
      have hle := (lenF ts (some v) ts1 h1).1
      exact ihTermLoop v ts1 (by omega)
    · intro left ts hc
      simp only [parse_term_loop]
      split <;>
        first
        | (rename_i rest
           simp only [List.length_cons] at hc
           refine pbind_ne_none (ihFactor rest (by omega)) ?_
           intro v ts1 h1
           have hle := (lenF rest (some v) ts1 h1).1
           exact ihTermLoop _ ts1 (by omega))
        | simp
    · intro ts hc
      simp only [parse_factor]
      refine pbind_ne_none (ihUnary ts (by omega)) ?_
      intro v ts1 h1
      have hle := (lenU ts (some v) ts1 h1).1
      exact ihFactorLoop v ts1 (by omega)
    · intro left ts hc
      simp only [parse_factor_loop]
      split <;>
        first
        | (rename_i rest
           simp only [List.length_cons] at hc
           refine pbind_ne_none (ihUnary rest (by omega)) ?_
           intro v ts1 h1
           have hle := (lenU rest (some v) ts1 h1).1
           exact ihFactorLoop _ ts1 (by omega))
        | simp
    · intro ts hc
      simp only [parse_unary]
      split
      · rename_i rest
        simp only [List.length_cons] at hc
        refine pbind_ne_none (ihUnary rest (by omega)) ?_
        intro v ts1 h1
        simp
      · rename_i rest
        simp only [List.length_cons] at hc
        refine pbind_ne_none (ihUnary rest (by omega)) ?_
        intro v ts1 h1
        simp
      · exact ihPrimary ts (by omega)
    · intro ts hc
      simp only [parse_primary]
      split
      · simp
      · rename_i name rest
        simp only [List.length_cons] at hc
        exact ihMac _ rest (by omega)
      · rename_i rest
        simp only [List.length_cons] at hc
        exact ihMac _ rest (by omega)
      · rename_i rest
        simp only [List.length_cons] at hc
        refine pbind_ne_none (ihExpr rest (by omega)) ?_
        intro v ts1 h1
        split <;> simp
      · rename_i rest
        simp only [List.length_cons] at hc
        split
        · simp
        · refine pbind_ne_none (ihExprList rest (by omega)) ?_
          intro v ts1 h1
          split <;> simp
      · simp
    · intro ts hc
      simp only [parse_expr_list]
      refine pbind_ne_none (ihExpr ts (by omega)) ?_
      intro v ts1 h1
      have hle := (lenE ts (some v) ts1 h1).1
      split
      · rename_i ts2
        simp only [List.length_cons] at hle
        refine pbind_ne_none (ihExprList ts2 (by omega)) ?_
        intro w ts3 h3
        simp
      · simp
    · intro ts hc
      simp only [parse_function_arguments]
      split
      · simp
      · exact ihExprList ts (by omega)
    · intro e ts hc
      simp only [parse_member_access_or_call]
      split
      · rename_i rest
        simp only [List.length_cons] at hc
        split
        · rename_i member rest2
          simp only [List.length_cons] at hc
          split
          · rename_i rest3
            simp only [List.length_cons] at hc
            refine pbind_ne_none (ihArgs rest3 (by omega)) ?_
            intro v ts1 h1
            have hle := lenAR rest3 (some v) ts1 h1
            split
            · rename_i ts2
              simp only [List.length_cons] at hle
              exact ihMac _ ts2 (by omega)
            · simp
          · exact ihMac _ rest2 (by omega)
        · simp
        · simp
      · rename_i rest
        simp only [List.length_cons] at hc
        refine pbind_ne_none (ihArgs rest (by omega)) ?_
        intro v ts1 h1
        have hle := lenAR rest (some v) ts1 h1
        split
        · rename_i ts2
          simp only [List.length_cons] at hle
          split
          · exact ihMac _ ts2 (by omega)
          · simp
        · simp
      · simp

/-- Fuel sufficiency for the parameter-list grammar. -/
theorem paramsSuff : ∀ f : Nat,
    PSuff parse_function_parameters 2 f
  ∧ PSuff parse_params_loop 1 f
  ∧ (∀ n ts, 64 * ts.length + 2 ≤ f → parse_param_after_name f n ts ≠ none)
  ∧ PSuffAcc parse_params_comma 1 f := by
  intro f
  induction f with
  | zero =>
    exact ⟨fun ts hc => absurd hc (by omega),
      fun ts hc => absurd hc (by omega),
      fun n ts hc => absurd hc (by omega),
      fun x ts hc => absurd hc (by omega)⟩
  | succ f ih =>
    obtain ⟨ihP, ihL, ihA, ihC⟩ := ih
    obtain ⟨lenP, lenL, lenA, lenC⟩ := paramsLen f
    refine ⟨?_, ?_, ?_, ?_⟩
    · intro ts hc
      simp only [parse_function_parameters]
      split
      · simp
      · exact ihL ts (by omega)
    · intro ts hc
      simp only [parse_params_loop]
      split
      · rename_i n ts1
        simp only [List.length_cons] at hc
        exact ihA n ts1 (by omega)
      · rename_i ts1
        simp only [List.length_cons] at hc
        exact ihA "self" ts1 (by omega)
      · simp
      · simp
    · intro n ts hc
      simp only [parse_param_after_name]
      split
      · exact ihC _ ts (by omega)
      · split
        · rename_i ts1
          simp only [List.length_cons] at hc
          split
          · rename_i t ts2
            simp only [List.length_cons] at hc
            exact ihC _ ts2 (by omega)
          · simp
          · simp
        · simp
    · intro param ts hc
      simp only [parse_params_comma]
      split
      · rename_i ts1
        simp only [List.length_cons] at hc
        refine pbind_ne_none (ihL ts1 (by omega)) ?_
        intro v tsa h1
        simp
      · simp

/-- Fuel sufficiency for the statement grammar. -/
theorem stmtSuff : ∀ f : Nat,
    PSuff parse_statement 11 f
  ∧ PSuff parse_variable_declaration 10 f
  ∧ (∀ n dt ts, 64 * ts.length + 1 ≤ f →
      parse_var_decl_rest f n dt ts ≠ none)
  ∧ PSuff parse_conditional_statement 10 f
  ∧ PSuff parse_for_loop 10 f
  ∧ PSuff parse_while_loop 10 f
  ∧ PSuff parse_function_declaration 10 f
  ∧ PSuff parse_return_statement 10 f
  ∧ PSuff parse_class_declaration 10 f
  ∧ PSuffAcc parse_class_attrs 1 f
  ∧ PSuffAcc parse_class_methods 1 f
  ∧ PSuff parse_assignment_or_expression 10 f
  ∧ PSuff parse_block_statement 10 f
  ∧ (∀ ts, 64 * ts.length + 12 ≤ f → parse_block_body f ts ≠ none) := by
  intro f
  induction f with
  | zero =>
    exact ⟨fun ts hc => absurd hc (by omega),
      fun ts hc => absurd hc (by omega),
      fun n dt ts hc => absurd hc (by omega),
      fun ts hc => absurd hc (by omega),
      fun ts hc => absurd hc (by omega),
      fun ts hc => absurd hc (by omega),
      fun ts hc => absurd hc (by omega),
      fun ts hc => absurd hc (by omega),
      fun ts hc => absurd hc (by omega),
      fun x ts hc => absurd hc (by omega),
      fun x ts hc => absurd hc (by omega),
      fun ts hc => absurd hc (by omega),
      fun ts hc => absurd hc (by omega),
      fun ts hc => absurd hc (by omega)⟩
  | succ f ih =>
    obtain ⟨ihS, ihVD, ihVR, ihIF, ihFOR, ihWH, ihFN, ihRET, ihCL, ihCA,
      ihCM, ihAOE, ihBS, ihBB⟩ := ih
    obtain ⟨lenS, -, -, -, -, -, -, -, -, lenCA, lenCM, -, -, lenBB⟩ :=
      stmtLen f
    have lenE := (exprLen f).1
    have sE := (exprSuff f).1
    have sPar := (paramsSuff f).1
    have lenPar := (paramsLen f).1
    refine ⟨?_, ?_, ?_, ?_, ?_, ?_, ?_, ?_, ?_, ?_, ?_, ?_, ?_, ?_⟩
    · intro ts hc
      simp only [parse_statement]
      split
      · exact ihVD _ (by omega)
      · exact ihIF _ (by omega)
      · exact ihFOR _ (by omega)
      · exact ihFN _ (by omega)
      · exact ihRET _ (by omega)
      · exact ihAOE _ (by omega)
      · exact ihBS _ (by omega)
      · exact ihWH _ (by omega)
      · exact ihCL _ (by omega)
      · simp
    · intro ts hc
      simp only [parse_variable_declaration]
      split
      · rename_i ts1
        simp only [List.length_cons] at hc
        split
        · rename_i n ts2
          simp only [List.length_cons] at hc
          split
          · rename_i ts3
            simp only [List.length_cons] at hc
            split
            · rename_i t ts4
              simp only [List.length_cons] at hc
              exact ihVR n (some t) ts4 (by omega)
            · simp
            · simp
          · exact ihVR n none ts2 (by omega)
        · simp
        · simp
      · simp
    · intro n dt ts hc
      simp only [parse_var_decl_rest]
      split
      · rename_i ts1
        simp only [List.length_cons] at hc
        refine pbind_ne_none (sE ts1 (by omega)) ?_
        intro v tsa h1
        simp
      · simp
    · intro ts hc
      simp only [parse_conditional_statement]
      split
      · rename_i ts1
        simp only [List.length_cons] at hc
        split
        · rename_i ts2
          simp only [List.length_cons] at hc
          refine pbind_ne_none (sE ts2 (by omega)) ?_
          intro cond ts3 h1
          have hle := (lenE ts2 (some cond) ts3 h1).1
          split
          · rename_i ts4
            simp only [List.length_cons] at hle
            split
            · rename_i ts5
              simp only [List.length_cons] at hle
              split
              · rename_i heq
                exact absurd heq (ihBB ts5 (by omega))
              · rename_i then_branch ts6 heq
                have hb1 := lenBB ts5 then_branch ts6 heq
                split
                · rename_i ts7
                  split
                  · rename_i ts8
                    split
                    · rename_i ts9
                      split
                      · rename_i heq2
                        refine absurd heq2 (ihBB ts9 ?_)
                        simp only [List.length_cons] at hb1
                        omega
                      · rename_i els ts10 heq2
                        split
                        · simp
                        · simp
                    · simp
                  · simp
                · simp
            · simp
          · simp
        · simp
      · simp
    · intro ts hc
      simp only [parse_for_loop]
      split
      · rename_i ts1
        simp only [List.length_cons] at hc
        split
        · rename_i n ts2
          simp only [List.length_cons] at hc
          split
          · rename_i ts3
            simp only [List.length_cons] at hc
            split
            · rename_i ts4
              simp only [List.length_cons] at hc
              split
              · rename_i ts5
                simp only [List.length_cons] at hc
                split
                · rename_i ts6
                  simp only [List.length_cons] at hc
                  refine pbind_ne_none (sE ts6 (by omega)) ?_
                  intro start ts7 h1
                  have hle1 := (lenE ts6 (some start) ts7 h1).1
                  split
                  · rename_i ts8
                    simp only [List.length_cons] at hle1
                    refine pbind_ne_none (sE ts8 (by omega)) ?_
                    intro stop ts9 h3
                    have hle2 := (lenE ts8 (some stop) ts9 h3).1
                    split
                    · rename_i ts10
                      simp only [List.length_cons] at hle2
                      refine pbind_ne_none (sE ts10 (by omega)) ?_
                      intro step ts11 h5
                      have hle3 := (lenE ts10 (some step) ts11 h5).1
                      split
                      · rename_i ts12
                        simp only [List.length_cons] at hle3
                        split
                        · rename_i ts13
                          simp only [List.length_cons] at hle3
                          split
                          · rename_i heq
                            exact absurd heq (ihBB ts13 (by omega))
                          · rename_i body ts14 heq
                            split
                            · simp
                            · simp
                        · simp
                      · simp
                    · simp
                  · simp
                · simp
              · simp
            · simp
          · simp
        · simp
        · simp
      · simp
    · intro ts hc
      simp only [parse_while_loop]
      split
      · rename_i ts1
        simp only [List.length_cons] at hc
        split
        · rename_i ts2
          simp only [List.length_cons] at hc
          refine pbind_ne_none (sE ts2 (by omega)) ?_
          intro cond ts3 h1
          have hle := (lenE ts2 (some cond) ts3 h1).1
          split
          · rename_i ts4
            simp only [List.length_cons] at hle
            split
            · rename_i ts5
              simp only [List.length_cons] at hle
              split
              · rename_i heq
                exact absurd heq (ihBB ts5 (by omega))
              · rename_i body ts6 heq
                split
                · simp
                · simp
            · simp
          · simp
        · simp
      · simp
    · intro ts hc
      simp only [parse_function_declaration]
      split
      · rename_i ts1
        simp only [List.length_cons] at hc
        split
        · rename_i n ts2
          simp only [List.length_cons] at hc
          split
          · rename_i ts3
            simp only [List.length_cons] at hc
            refine pbind_ne_none (sPar ts3 (by omega)) ?_
            intro ps ts4 h1
            have hle := lenPar ts3 (some ps) ts4 h1
            split
            · rename_i ts5
              simp only [List.length_cons] at hle
              split
              · rename_i ts6
                simp only [List.length_cons] at hle
                split
                · rename_i heq
                  exact absurd heq (ihBB ts6 (by omega))
                · rename_i body ts7 heq
                  split
                  · simp
                  · simp
              · simp
            · simp
          · simp
        · simp
        · simp
      · simp
    · intro ts hc
      simp only [parse_return_statement]
      split
      · rename_i ts1
        simp only [List.length_cons] at hc
        split
        · simp
        · simp
        · simp
        · simp
        · simp
        · refine pbind_ne_none (sE ts1 (by omega)) ?_
          intro v tsa h1
          simp
      · simp
    · intro ts hc
      simp only [parse_class_declaration]
      split
      · rename_i ts1
        simp only [List.length_cons] at hc
        split
        · rename_i class_name ts2
          simp only [List.length_cons] at hc
          split
          · rename_i ts3
            simp only [List.length_cons] at hc
            split
            · rename_i ts4
              simp only [List.length_cons] at hc
              split
              · rename_i ts5
                simp only [List.length_cons] at hc
                refine pbind_ne_none (ihCA [] ts5 (by omega)) ?_
                intro fields ts6 h1
                have hle := lenCA [] ts5 (some fields) ts6 h1
                split
                · rename_i ts7
                  simp only [List.length_cons] at hle
                  split
                  · rename_i ts8
                    simp only [List.length_cons] at hle
                    split
                    · rename_i ts9
                      simp only [List.length_cons] at hle
                      refine pbind_ne_none (ihCM fields ts9 (by omega)) ?_
                      intro fields2 ts10 h3
                      split
                      · rename_i ts11
                        split
                        · simp
                        · simp
                      · simp
                    · simp
                  · split
                    · simp
                    · simp
                · simp
              · simp
            · simp
          · simp
        · simp
        · simp
      · simp
    · intro fields ts hc
      simp only [parse_class_attrs]
      split
      · simp
      · simp
      · rename_i field_name ts1
        simp only [List.length_cons] at hc
        split
        · rename_i ts2
          simp only [List.length_cons] at hc
          split
          · rename_i t ts3
            simp only [List.length_cons] at hc
            exact ihCA _ ts3 (by omega)
          · simp
          · simp
        · simp
      · simp
    · intro fields ts hc
      simp only [parse_class_methods]
      split
      · simp
      · simp
      · rename_i ts1
        simp only [List.length_cons] at hc
        split
        · rename_i method_name ts2
          simp only [List.length_cons] at hc
          split
          · rename_i ts3
            simp only [List.length_cons] at hc
            refine pbind_ne_none (sPar ts3 (by omega)) ?_
            intro ps ts4 h1
            have hle := lenPar ts3 (some ps) ts4 h1
            split
            · rename_i ts5
              simp only [List.length_cons] at hle
              split
              · rename_i ts6
                simp only [List.length_cons] at hle
                split
                · rename_i heq
                  exact absurd heq (ihBB ts6 (by omega))
                · rename_i body ts7 heq
                  have hbb := lenBB ts6 body ts7 heq
                  split
                  · rename_i ts8
                    refine ihCM _ ts8 ?_
                    simp only [List.length_cons] at hbb
                    omega
                  · simp
              · simp
            · simp
          · simp
        · simp
        · simp
      · simp
    · intro ts hc
      simp only [parse_assignment_or_expression]
      split
      · rename_i heq
        exact absurd heq (sE ts (by omega))
      · rename_i e ts1 heq
        have hlt := (lenE ts (some e) ts1 heq).2 rfl
        split
        · rename_i rest
          simp only [List.length_cons] at hlt
          refine pbind_ne_none (sE rest (by omega)) ?_
          intro v tsa h1
          split
          · simp
          · simp
          · simp
        · simp
      · rename_i tsx heq
        split
        · rename_i n rest
          simp only [List.length_cons] at hc
          split
          · rename_i r2
            simp only [List.length_cons] at hc
            refine pbind_ne_none (sE r2 (by omega)) ?_
            intro v tsa h1
            simp
          · refine pbind_ne_none
              (sE _ (by simp only [List.length_cons]; omega)) ?_
            intro v tsa h1
            simp
        · simp
        · simp
    · intro ts hc
      simp only [parse_block_statement]
      split
      · rename_i ts1
        simp only [List.length_cons] at hc
        split
        · rename_i heq
          exact absurd heq (ihBB ts1 (by omega))
        · rename_i statements ts2 heq
          split
          · simp
          · simp
      · simp
    · intro ts hc
      rcases ts with _ | ⟨t, tl⟩
      · simp [parse_block_body]
      · simp only [parse_block_body]
        simp only [List.length_cons] at hc
        split
        · simp
        · simp
        · split
          · rename_i heq
            refine absurd heq (ihS _ ?_)
            simp only [List.length_cons]
            omega
          · rename_i stmt ts1 heq
            have hstrict := (lenS _ (some stmt) ts1 heq).2 rfl
            split
            · rename_i heq2
              refine absurd heq2 (ihBB ts1 ?_)
              simp only [List.length_cons] at hstrict
              omega
            · simp
          · rename_i ts1 heq
            have hle := (lenS _ none ts1 heq).1
            refine ihBB (ts1.drop 1) ?_
            simp only [List.length_cons] at hle
            simp only [List.length_drop]
            omega

/-- Fuel sufficiency for the top-level parse loop. -/
theorem progSuff : ∀ f ts, 64 * ts.length + 12 ≤ f →
    parse_program f ts ≠ none := by
  intro f
  induction f with
  | zero => exact fun ts hc => absurd hc (by omega)
  | succ f ih =>
    intro ts hc
    rcases ts with _ | ⟨t, tl⟩
    · simp [parse_program]
    · simp only [parse_program]
      simp only [List.length_cons] at hc
      split
      · rename_i heq
        refine absurd heq ((stmtSuff f).1 _ ?_)
        simp only [List.length_cons]
        omega
      · rename_i stmt ts1 heq
        have hstrict := ((stmtLen f).1 _ (some stmt) ts1 heq).2 rfl
        split
        · rename_i heq2
          refine absurd heq2 (ih ts1 ?_)
          simp only [List.length_cons] at hstrict
          omega
        · simp
      · rename_i ts1 heq
        have hle := ((stmtLen f).1 _ none ts1 heq).1
        refine ih (ts1.drop 1) ?_
        simp only [List.length_cons] at hle
        simp only [List.length_drop]
        omega

/-- C9: `ASTParser::parse` terminates on every finite token list — with
the fuel budget `64 * |ts| + 64` the embedded parser never exhausts its
fuel, so it returns a statement list; the measure justifying this is the
remaining-token count: a successful `parse_statement` strictly consumes
at least one token, and after a failed `parse_statement` (which never
grows the remainder) the loops of `ASTParser::parse` and
`parse_block_body` drop one more token, again strictly decreasing. -/
theorem C9_parser_termination :
    (∀ ts : List Tokens,
      ∃ stmts, parse_program (64 * ts.length + 64) ts = some stmts)
  ∧ (∀ (f : Nat) (ts : List Tokens) (stmt : Statement) (ts' : List Tokens),
      parse_statement f ts = some (some stmt, ts') →
        ts'.length < ts.length)
  ∧ (∀ (f : Nat) (ts ts' : List Tokens),
      parse_statement f ts = some (none, ts') → ts ≠ [] →
        (ts'.drop 1).length < ts.length) := by
  refine ⟨?_, ?_, ?_⟩
  · intro ts
    have h := progSuff (64 * ts.length + 64) ts (by omega)
    exact Option.ne_none_iff_exists'.mp h
  · intro f ts stmt ts' h
    exact ((stmtLen f).1 ts (some stmt) ts' h).2 rfl
  · intro f ts ts' h hne
    have hle := ((stmtLen f).1 ts none ts' h).1
    rcases ts with _ | ⟨t, tl⟩
    · exact absurd rfl hne
    · simp only [List.length_cons] at hle
      simp only [List.length_drop, List.length_cons]
      omega

/-- Witness for C9 at concrete inputs: the empty program parses, a
`return` statement parse strictly consumes, and a failed parse followed
by the one-token skip strictly consumes. -/
theorem C9_witness :
    (∃ stmts,
      parse_program (64 * ([] : List Tokens).length + 64) [] = some stmts)
  ∧ ([] : List Tokens).length < [Tokens.RETURN].length
  ∧ (([Tokens.RBRACE].drop 1).length < [Tokens.RBRACE].length) :=
  ⟨C9_parser_termination.1 [],
   C9_parser_termination.2.1 5 [.RETURN] (.Return none) [] rfl,
   C9_parser_termination.2.2 5 [.RBRACE] [.RBRACE] rfl (by simp)⟩

end OxyPy
